import Mathlib

/-!
Shallow embedding of the Dell CPLD URL resolver
(`src/scraper/resolve_cpld_urls.py`, with `src/scraper/scraper.py` as a
near-duplicate of the same `main`), together with theorems settling the
frozen claims about it.

Strings are modelled as `List Char` (`Str`); external collaborators
(the JSON driver-listing API, the catalog download, and the XML parser)
are modelled as explicit oracle parameters, so the repository's decision
logic is a pure function of its inputs.  Machine text encodings are
embedded over `List Nat` byte lists.
-/

set_option maxRecDepth 10000

namespace CPLD

/-- Python strings are modelled as lists of characters. -/
abbrev Str := List Char

/-- Python truthiness of an optional string: `None` and `""` are falsy. -/
def truthy : Option Str → Bool
  | none => false
  | some s => !s.isEmpty

/-- Python `a or b` on optional strings (used for `rec.get(k) or ...` chains). -/
def pyOr (a b : Option Str) : Option Str :=
  if truthy a then a else b

/-- ASCII whitespace, as matched by Python's `\s` and `str.strip` on the
ASCII range (the inputs relevant to the claims are ASCII). -/
def pyWs (c : Char) : Bool :=
  c = ' ' || c = '\t' || c = '\n' || c = '\r' || c = '\x0b' || c = '\x0c'

/-- Python `str.strip()`. -/
def pyStrip (s : Str) : Str :=
  ((s.dropWhile pyWs).reverse.dropWhile pyWs).reverse

/-- Python `str.lower()` (ASCII). -/
def lowerStr (s : Str) : Str := s.map Char.toLower

/-- Python `str.upper()` (ASCII). -/
def upperStr (s : Str) : Str := s.map Char.toUpper

/-- `re.sub(r"\s+", " ", s)`: every whitespace run becomes a single space. -/
def collapseWs : Str → Str
  | [] => []
  | [c] => if pyWs c then [' '] else [c]
  | c1 :: c2 :: r =>
    if pyWs c1 && pyWs c2 then collapseWs (c2 :: r)
    else (if pyWs c1 then ' ' else c1) :: collapseWs (c2 :: r)

/-- `_canon` from `resolve_cpld_urls.py`:
`re.sub(r"\s+", " ", s.strip().lower())`. -/
def canon (s : Str) : Str := collapseWs (lowerStr (pyStrip s))

/-- `s.split("/")[-1]`: the segment after the last slash. -/
def lastSlashSegment (s : Str) : Str :=
  ((s.reverse.takeWhile (· ≠ '/'))).reverse

/-- The substring `needle` occurs in `hay` starting at index `i`
(`take`/`drop` formulation used both by the `in` operator model and by
the word-boundary search). -/
def subAt (needle hay : Str) (i : Nat) : Bool :=
  decide ((hay.drop i).take needle.length = needle)

/-- Python `needle in hay` substring test. -/
def containsSub (needle hay : Str) : Bool :=
  (List.range (hay.length + 1)).any (subAt needle hay)

/-- Lexicographic `<` on strings by code point, as Python compares `str`. -/
def lexLt : Str → Str → Bool
  | [], [] => false
  | [], _ :: _ => true
  | _ :: _, [] => false
  | a :: r, b :: s => if a < b then true else if b < a then false else lexLt r s

/-! ### Date normalizer (`_parse_date`)

`_parse_date` strips the input, drops anything from the first `'T'` on,
then tries `strptime` with formats `"%d %b %Y"`, `"%Y-%m-%d"`,
`"%m/%d/%Y"` in order, returning `datetime.min` when none matches.
The `strptime` regexes for `%d` (`3[01]|[12]\d|0[1-9]|[1-9]`),
`%m` (`1[0-2]|0[1-9]|[1-9]`), `%Y` (four digits) and `%b`
(case-insensitive month abbreviation) are embedded literally; `datetime`'s
constructor check (year in `1..9999`, day within the month) follows the
regex match.  Dates are compared through the numeric ordinal
`y*10000 + m*100 + d`, which agrees with `datetime` comparison since all
parsed times are midnight. -/

structure DateT where
  y : Nat
  m : Nat
  d : Nat
deriving DecidableEq

def dateOrd (dt : DateT) : Nat := dt.y * 10000 + dt.m * 100 + dt.d

/-- `datetime.min` = `datetime(1, 1, 1)`. -/
def dateMin : DateT := ⟨1, 1, 1⟩

def minOrd : Nat := dateOrd dateMin

def isLeap (y : Nat) : Bool := y % 4 = 0 && (y % 100 ≠ 0 || y % 400 = 0)

def daysInMonth (y m : Nat) : Nat :=
  if m = 2 then (if isLeap y then 29 else 28)
  else if m = 4 || m = 6 || m = 9 || m = 11 then 30
  else 31

/-- The `datetime(y, m, d)` constructor check (month range is already
ensured by the `%m`/`%b` regexes, year range by `%Y`). -/
def checkDate (y m d : Nat) : Option DateT :=
  if 1 ≤ y && y ≤ 9999 && 1 ≤ m && m ≤ 12 && 1 ≤ d && d ≤ daysInMonth y m then
    some ⟨y, m, d⟩
  else none

def digitVal (c : Char) : Nat := c.toNat - '0'.toNat

/-- `%d`: `3[01]|[12]\d|0[1-9]|[1-9]`, alternatives in regex order. -/
def pDay : Str → Option (Nat × Str)
  | [] => none
  | [c] => if '1' ≤ c && c ≤ '9' then some (digitVal c, []) else none
  | c1 :: c2 :: r =>
    if c1 = '3' && (c2 = '0' || c2 = '1') then some (30 + digitVal c2, r)
    else if (c1 = '1' || c1 = '2') && c2.isDigit then
      some (10 * digitVal c1 + digitVal c2, r)
    else if c1 = '0' && ('1' ≤ c2 && c2 ≤ '9') then some (digitVal c2, r)
    else if '1' ≤ c1 && c1 ≤ '9' then some (digitVal c1, c2 :: r)
    else none

/-- `%m`: `1[0-2]|0[1-9]|[1-9]`, alternatives in regex order. -/
def pMonth : Str → Option (Nat × Str)
  | [] => none
  | [c] => if '1' ≤ c && c ≤ '9' then some (digitVal c, []) else none
  | c1 :: c2 :: r =>
    if c1 = '1' && ('0' ≤ c2 && c2 ≤ '2') then some (10 + digitVal c2, r)
    else if c1 = '0' && ('1' ≤ c2 && c2 ≤ '9') then some (digitVal c2, r)
    else if '1' ≤ c1 && c1 ≤ '9' then some (digitVal c1, c2 :: r)
    else none

/-- `%Y`: exactly four digits. -/
def pYear : Str → Option (Nat × Str)
  | a :: b :: c :: d :: r =>
    if a.isDigit && b.isDigit && c.isDigit && d.isDigit then
      some (1000 * digitVal a + 100 * digitVal b + 10 * digitVal c + digitVal d, r)
    else none
  | _ => none

def monthAbbrevs : List (Str × Nat) :=
  [("jan".data, 1), ("feb".data, 2), ("mar".data, 3), ("apr".data, 4),
   ("may".data, 5), ("jun".data, 6), ("jul".data, 7), ("aug".data, 8),
   ("sep".data, 9), ("oct".data, 10), ("nov".data, 11), ("dec".data, 12)]

/-- `%b`: a case-insensitive three-letter month abbreviation. -/
def pMonthName : Str → Option (Nat × Str)
  | a :: b :: c :: r =>
    match monthAbbrevs.find? (fun p => p.1 = [a.toLower, b.toLower, c.toLower]) with
    | some p => some (p.2, r)
    | none => none
  | _ => none

/-- `\s+` in an strptime format: one or more whitespace characters. -/
def pSpaces : Str → Option Str
  | [] => none
  | c :: r => if pyWs c then some (r.dropWhile pyWs) else none

def pChar (ch : Char) : Str → Option Str
  | [] => none
  | c :: r => if c = ch then some r else none

/-- `strptime(s, "%d %b %Y")`, including the unconverted-data check and
the `datetime` constructor validation. -/
def fmtDayMonthNameYear (s : Str) : Option DateT :=
  match pDay s with
  | none => none
  | some (d, r1) =>
    match pSpaces r1 with
    | none => none
    | some r2 =>
      match pMonthName r2 with
      | none => none
      | some (m, r3) =>
        match pSpaces r3 with
        | none => none
        | some r4 =>
          match pYear r4 with
          | none => none
          | some (y, r5) => if r5 = [] then checkDate y m d else none

/-- `strptime(s, "%Y-%m-%d")`. -/
def fmtIso (s : Str) : Option DateT :=
  match pYear s with
  | none => none
  | some (y, r1) =>
    match pChar '-' r1 with
    | none => none
    | some r2 =>
      match pMonth r2 with
      | none => none
      | some (m, r3) =>
        match pChar '-' r3 with
        | none => none
        | some r4 =>
          match pDay r4 with
          | none => none
          | some (d, r5) => if r5 = [] then checkDate y m d else none

/-- `strptime(s, "%m/%d/%Y")`. -/
def fmtSlash (s : Str) : Option DateT :=
  match pMonth s with
  | none => none
  | some (m, r1) =>
    match pChar '/' r1 with
    | none => none
    | some r2 =>
      match pDay r2 with
      | none => none
      | some (d, r3) =>
        match pChar '/' r3 with
        | none => none
        | some r4 =>
          match pYear r4 with
          | none => none
          | some (y, r5) => if r5 = [] then checkDate y m d else none

/-- The ordered format chain of `_parse_date`. -/
def tryFormatsOn (s' : Str) : Option DateT :=
  match fmtDayMonthNameYear s' with
  | some dt => some dt
  | none =>
    match fmtIso s' with
    | some dt => some dt
    | none => fmtSlash s'

/-- The format loop of `_parse_date`, applied to
`s.strip().split("T")[0]`; `none` when every format fails. -/
def tryFormats (s : Str) : Option DateT :=
  tryFormatsOn ((pyStrip s).takeWhile (· ≠ 'T'))

/-- `_parse_date` of `resolve_cpld_urls.py` / `scraper.py`, returning the
comparison ordinal of the parsed datetime (`datetime.min` when no format
matches). -/
def parse_date (s : Str) : Nat :=
  match tryFormats s with
  | some dt => dateOrd dt
  | none => minOrd

/-! ### Stable descending sort (`list.sort(key=..., reverse=True)`)

Python's `sort` is stable; with `reverse=True` it orders descending by
key while equal-key elements keep their original relative order.  A
stable sort with respect to a total preorder is unique, so the insertion
sort below (which inserts each element after all earlier elements whose
key is not strictly smaller) computes exactly the list Python produces. -/

/-- Insert `x` into a descending list: `x` goes before the first element
strictly below it, hence after every earlier element with an equal key. -/
def insertDesc (lt : α → α → Bool) (x : α) : List α → List α
  | [] => [x]
  | y :: ys => if lt y x then x :: y :: ys else y :: insertDesc lt x ys

/-- `l.sort(key=k, reverse=True)` for the strict comparator `lt` induced
by `k`. -/
def sortDesc (lt : α → α → Bool) (l : List α) : List α :=
  l.foldl (fun acc x => insertDesc lt x acc) []

/-- Fold computing the element `sort(... reverse=True)[0]` selects: the
first-seen maximum. -/
def maxGo (lt : α → α → Bool) (m : α) : List α → α
  | [] => m
  | y :: r => if lt m y then maxGo lt y r else maxGo lt m r

def maxFirst (lt : α → α → Bool) : List α → Option α
  | [] => none
  | x :: r => some (maxGo lt x r)

/-- Strict lexicographic comparison of `(date ordinal, version)` pairs —
the catalog sort key `(_parse_date(x["released"]), x["version"])`. -/
def keyLtP (a b : Nat × Str) : Bool :=
  if a.1 < b.1 then true
  else if b.1 < a.1 then false
  else lexLt a.2 b.2

/-- Strict lexicographic comparison of
`(release date, last-update date, version)` triples — the JSON sort key. -/
def keyLtT (a b : Nat × Nat × Str) : Bool :=
  if a.1 < b.1 then true
  else if b.1 < a.1 then false
  else if a.2.1 < b.2.1 then true
  else if b.2.1 < a.2.1 then false
  else lexLt a.2.2 b.2.2

/-! ### Driver-id extraction (`DRIVERID_RE = r"_([0-9A-Z]{5})_"`, IGNORECASE) -/

/-- One character of the class `[0-9A-Z]` with `re.IGNORECASE`. -/
def idChar (c : Char) : Bool := c.isDigit || (c.isUpper || c.isLower)

/-- Try `DRIVERID_RE` at the head of the string; on success return the
captured group upper-cased. -/
def dridMatchAt : Str → Option Str
  | '_' :: a :: b :: c :: d :: e :: '_' :: _ =>
    if idChar a && idChar b && idChar c && idChar d && idChar e then
      some (upperStr [a, b, c, d, e])
    else none
  | _ => none

/-- `DRIVERID_RE.search(s)` followed by `m.group(1).upper()`: leftmost
match wins. -/
def driveridSearch : Str → Option Str
  | [] => none
  | x :: r =>
    match dridMatchAt (x :: r) with
    | some s => some s
    | none => driveridSearch r

/-- `_extract_driverid_from_filename`. -/
def extract_driverid_from_filename (name : Str) : Option Str :=
  driveridSearch name

/-! ### JSON path (`_resolve_latest_cpld_json`) -/

/-- The `FileFrmtInfo` sub-object of an API item. -/
structure FileFrmt where
  FileName : Option Str := none
  HttpFileLocation : Option Str := none
deriving DecidableEq

/-- One entry of `payload["DriverListData"]`, restricted to the fields the
resolver reads.  Absent keys and JSON `null`s are both `none`; non-string
values for the id fields are treated as absent (the code checks
`isinstance(val, str)`). -/
structure JsonRec where
  DriverName : Option Str := none
  Category : Option Str := none
  ComponentType : Option Str := none
  DriverId : Option Str := none
  DriverID : Option Str := none
  ReleaseID : Option Str := none
  DellDriverId : Option Str := none
  UniqueDownloadId : Option Str := none
  FileFrmtInfo : Option FileFrmt := none
  fileFrmtInfoLower : Option FileFrmt := none
  ReleaseDate : Option Str := none
  LUPDDate : Option Str := none
  DellVer : Option Str := none
  Version : Option Str := none
  releaseVersion : Option Str := none
deriving DecidableEq

/-- `_is_cpld_json`: `"CPLD" in " ".join(DriverName, Category,
ComponentType).upper()`. -/
def is_cpld_json (rec : JsonRec) : Bool :=
  containsSub "CPLD".data
    (upperStr ((rec.DriverName.getD []) ++ " ".data ++ (rec.Category.getD [])
      ++ " ".data ++ (rec.ComponentType.getD [])))

/-- `_extract_driverid_from_record`: first 5-character value among the
known id fields (upper-cased), else `DRIVERID_RE` over
`FileFrmtInfo.FileName` then `FileFrmtInfo.HttpFileLocation`. -/
def extract_driverid_from_record (rec : JsonRec) : Option Str :=
  let fields := [rec.DriverId, rec.DriverID, rec.ReleaseID, rec.DellDriverId,
                 rec.UniqueDownloadId]
  match fields.findSome? (fun v =>
      match v with
      | some s => if s.length = 5 then some (upperStr s) else none
      | none => none) with
  | some r => some r
  | none =>
    let ffi := match rec.FileFrmtInfo, rec.fileFrmtInfoLower with
      | some f, _ => f
      | none, some f => f
      | none, none => {}
    match driveridSearch (ffi.FileName.getD []) with
    | some r => some r
    | none => driveridSearch (ffi.HttpFileLocation.getD [])

/-- A resolved-driver record (the dict returned by either resolver; the
`raw` debug field, which no consumer reads, is omitted). -/
structure Resolved where
  driverid : Str
  url : Str
  version : Option Str
  released : Option Str
  source : Str
deriving DecidableEq

def urlTemplate : Str :=
  "https://www.dell.com/support/home/en-us/drivers/driversdetails?driverid=".data

/-- The sort key of the JSON candidate list. -/
def jsonKey (d : JsonRec) : Nat × Nat × Str :=
  (parse_date (d.ReleaseDate.getD []), parse_date (d.LUPDDate.getD []),
   d.DellVer.getD [])

def ltJson (a b : JsonRec) : Bool := keyLtT (jsonKey a) (jsonKey b)

/-- The fixed platform/OS-code list of `_resolve_latest_cpld_json`. -/
def oscodes : List Str := ["NAA".data, "W2022".data, "WT64A".data, "UBT20".data]

/-- The network/parse boundary for one API call: either the item list
`payload.get("DriverListData") or []`, or a raised transport/parsing
error (`raise_for_status`, `r.json()`, timeouts, ...). -/
abbrev ApiOracle := Str → Str → Except Str (List JsonRec)

/-- The body of one iteration of the `for oscode in oscodes` loop of
`_resolve_latest_cpld_json`: any exception is absorbed into `none`
(`continue`), as is an empty CPLD list or a missing driver id. -/
def tryOscode (api : ApiOracle) (productcode oscode : Str) : Option Resolved :=
  match api productcode oscode with
  | .error _ => none
  | .ok items =>
    let cpld := items.filter is_cpld_json
    if cpld.isEmpty then none
    else
      match (sortDesc ltJson cpld).head? with
      | none => none
      | some latest =>
        match extract_driverid_from_record latest with
        | none => none
        | some driverid =>
          some { driverid := driverid,
                 url := urlTemplate ++ lowerStr driverid,
                 version := pyOr latest.DellVer (pyOr latest.Version latest.releaseVersion),
                 released := pyOr latest.ReleaseDate latest.LUPDDate,
                 source := "json:".data ++ oscode }

/-- `_resolve_latest_cpld_json`: first platform code that yields a usable
result wins; `none` when every code fails. -/
def resolve_latest_cpld_json (api : ApiOracle) (productcode : Str) : Option Resolved :=
  oscodes.findSome? (tryOscode api productcode)

/-! ### Catalog text decoding (`_download_catalog_text`)

The decompressed catalog bytes are decoded by trying
`utf-16le`, `utf-16`, `utf-8-sig`, `utf-8` strictly in that order and
falling back to `raw.decode("utf-8", errors="replace")`.  The codecs are
embedded over byte lists (`List Nat`, each entry < 256); the byte-order
used by Python's `utf-16` codec when no BOM is present is the machine's
native order, little-endian on the platforms this scraper runs on. -/

/-- Decode one UTF-8 sequence headed by `b`: the produced character and
the remaining bytes, or `none` when `b :: rest` does not start a valid
sequence. -/
def utf8Step (b : Nat) (rest : List Nat) : Option (Char × List Nat) :=
  if b < 0x80 then some (Char.ofNat b, rest)
  else if b < 0xC2 then none
  else if b < 0xE0 then
    match rest with
    | b2 :: r2 =>
      if 0x80 ≤ b2 && b2 < 0xC0 then
        some (Char.ofNat ((b - 0xC0) * 64 + (b2 - 0x80)), r2)
      else none
    | [] => none
  else if b < 0xF0 then
    match rest with
    | b2 :: b3 :: r3 =>
      if ((if b = 0xE0 then 0xA0 else 0x80) ≤ b2 &&
            b2 < (if b = 0xED then 0xA0 else 0xC0)) &&
          (0x80 ≤ b3 && b3 < 0xC0) then
        some (Char.ofNat ((b - 0xE0) * 4096 + (b2 - 0x80) * 64 + (b3 - 0x80)), r3)
      else none
    | _ => none
  else if b < 0xF5 then
    match rest with
    | b2 :: b3 :: b4 :: r4 =>
      if ((if b = 0xF0 then 0x90 else 0x80) ≤ b2 &&
            b2 < (if b = 0xF4 then 0x90 else 0xC0)) &&
          (0x80 ≤ b3 && b3 < 0xC0) && (0x80 ≤ b4 && b4 < 0xC0) then
        some (Char.ofNat ((b - 0xF0) * 262144 + (b2 - 0x80) * 4096 + (b3 - 0x80) * 64
          + (b4 - 0x80)), r4)
      else none
    | _ => none
  else none

/-- `raw.decode("utf-8", errors="replace")`: total lossy decoding — a
byte that does not start a valid sequence becomes `U+FFFD` and decoding
resumes at the next byte.  The fuel argument (instantiated with the byte
count, an upper bound on the number of emitted characters) only makes the
recursion structural. -/
def utf8ReplaceAux : Nat → List Nat → Str
  | 0, _ => []
  | _, [] => []
  | fuel + 1, b :: rest =>
    match utf8Step b rest with
    | some (c, r) => c :: utf8ReplaceAux fuel r
    | none => Char.ofNat 0xFFFD :: utf8ReplaceAux fuel rest

/-- Strict UTF-8 decoding (rejects overlong forms, surrogates, code
points above `U+10FFFF`, truncated sequences).  Like `utf8ReplaceAux`,
the fuel argument (instantiated with the byte count) only makes the
recursion structural. -/
def utf8DecodeAux : Nat → List Nat → Option Str
  | _, [] => some []
  | 0, _ :: _ => none
  | fuel + 1, b :: rest =>
    match utf8Step b rest with
    | some (c, r) => (utf8DecodeAux fuel r).map (fun t => c :: t)
    | none => none

def utf8Decode (raw : List Nat) : Option Str := utf8DecodeAux raw.length raw

def utf8Replace (raw : List Nat) : Str := utf8ReplaceAux raw.length raw

/-- Strict UTF-16 little-endian decoding (`"utf-16le"`): pairs of bytes,
surrogate pairs combined, lone surrogates and odd lengths rejected. -/
def utf16leDecode : List Nat → Option Str
  | [] => some []
  | [_] => none
  | b0 :: b1 :: rest =>
    let u := b0 + 256 * b1
    if u < 0xD800 || 0xE000 ≤ u then
      (utf16leDecode rest).map (fun t => Char.ofNat u :: t)
    else if u < 0xDC00 then
      match rest with
      | b2 :: b3 :: r2 =>
        let v := b2 + 256 * b3
        if 0xDC00 ≤ v && v < 0xE000 then
          (utf16leDecode r2).map (fun t =>
            Char.ofNat (0x10000 + (u - 0xD800) * 1024 + (v - 0xDC00)) :: t)
        else none
      | _ => none
    else none

/-- Strict UTF-16 big-endian decoding (for a `FE FF` BOM). -/
def utf16beDecode : List Nat → Option Str
  | [] => some []
  | [_] => none
  | b0 :: b1 :: rest =>
    let u := 256 * b0 + b1
    if u < 0xD800 || 0xE000 ≤ u then
      (utf16beDecode rest).map (fun t => Char.ofNat u :: t)
    else if u < 0xDC00 then
      match rest with
      | b2 :: b3 :: r2 =>
        let v := 256 * b2 + b3
        if 0xDC00 ≤ v && v < 0xE000 then
          (utf16beDecode r2).map (fun t =>
            Char.ofNat (0x10000 + (u - 0xD800) * 1024 + (v - 0xDC00)) :: t)
        else none
      | _ => none
    else none

/-- `"utf-16"`: honour a BOM, otherwise native (little-endian) order. -/
def utf16Decode (raw : List Nat) : Option Str :=
  match raw with
  | 0xFF :: 0xFE :: rest => utf16leDecode rest
  | 0xFE :: 0xFF :: rest => utf16beDecode rest
  | _ => utf16leDecode raw

/-- `"utf-8-sig"`: strip an `EF BB BF` signature, then strict UTF-8. -/
def utf8SigDecode (raw : List Nat) : Option Str :=
  match raw with
  | 0xEF :: 0xBB :: 0xBF :: rest => utf8Decode rest
  | _ => utf8Decode raw

/-- The decoding cascade of `_download_catalog_text` applied to the
decompressed bytes: first strict success among
`utf-16le`, `utf-16`, `utf-8-sig`, `utf-8`, else lossy UTF-8. -/
def decodeCatalog (raw : List Nat) : Str :=
  match utf16leDecode raw with
  | some t => t
  | none =>
    match utf16Decode raw with
    | some t => t
    | none =>
      match utf8SigDecode raw with
      | some t => t
      | none =>
        match utf8Decode raw with
        | some t => t
        | none => utf8Replace raw

/-! ### Model-label matching (`_labels_for_name`, `_display_matches`)

The fallback branch of `_display_matches` runs
`re.search(rf"\b{re.escape(base)}\b", disp)` where `base` is the
canonicalized model name.  Since `base` is escaped it is matched
literally; `\b` holds at a position exactly when one side is a word
character (`[0-9A-Za-z_]` — the inputs of interest are ASCII) and the
other is not (string boundaries count as non-word). -/

def isWordChar (c : Char) : Bool := c.isAlphanum || c = '_'

def wordAt (l : Str) (i : Nat) : Bool :=
  match l.get? i with
  | some c => isWordChar c
  | none => false

/-- `\b` holds at position `i` of `l`. -/
def boundaryAt (l : Str) : Nat → Bool
  | 0 => wordAt l 0
  | i + 1 => wordAt l i != wordAt l (i + 1)

/-- The pattern `\b base \b` (with `base` literal) matches at position `i`. -/
def wbMatchAt (base l : Str) (i : Nat) : Bool :=
  subAt base l i && boundaryAt l i && boundaryAt l (i + base.length)

/-- `re.search(rf"\b{re.escape(base)}\b", l)` succeeds. -/
def wordBoundarySearch (base l : Str) : Bool :=
  (List.range (l.length + 1)).any (wbMatchAt base l)

/-- `_labels_for_name`: the brand-prefixed label variants, canonicalized.
The Python `set` is modelled as a list; only membership is used. -/
def labels_for_name (name : Str) : List Str :=
  let base := pyStrip name
  [base, "poweredge ".data ++ base, "dell ".data ++ base,
   "dell poweredge ".data ++ base, "dell emc poweredge ".data ++ base].map canon

/-- `_display_matches`. -/
def display_matches (name display : Str) : Bool :=
  let labset := labels_for_name name
  let disp := canon display
  if labset.contains disp then true
  else wordBoundarySearch (canon name) disp

/-! ### Catalog scan (`_catalog_latest_cpld_for_model`)

`ET.fromstring` and the XPath queries are the external XML library; the
parsed document is modelled as the list of `SoftwareComponent` nodes with
exactly the projections the code reads: the `findtext` fields, the
`SupportedSystems`/`TargetSystems` model labels (Display text or
`display` attribute, already merged per `Model` node, in document order),
the first element found for each filename-bearing tag, all descendant
elements in `sc.iter()` order, and the `ET.tostring` serialization. -/

structure XElem where
  text : Option Str := none
  attrs : List (Str × Str) := []
deriving DecidableEq

/-- `el.get(a)`: attribute lookup. -/
def attrGet (el : XElem) (a : Str) : Option Str :=
  (el.attrs.find? (fun p => p.1 = a)).map (·.2)

structure SoftwareComponent where
  display : Option Str := none
  category : Option Str := none
  componentType : Option Str := none
  nameText : Option Str := none
  dellVersion : Option Str := none
  releaseDate : Option Str := none
  supportedLabels : List Str := []
  targetLabels : List Str := []
  pathElems : List (Str × XElem) := []
  allElems : List XElem := []
  serialized : Str := []
deriving DecidableEq

/-- `sc.find(f".//{tag}", ns)`. -/
def findTag (sc : SoftwareComponent) (tag : Str) : Option XElem :=
  (sc.pathElems.find? (fun p => p.1 = tag)).map (·.2)

/-- `_is_cpld_catalog`. -/
def is_cpld_catalog (sc : SoftwareComponent) : Bool :=
  containsSub "CPLD".data
    (upperStr ((sc.display.getD []) ++ " ".data ++ (sc.category.getD [])
      ++ " ".data ++ (sc.componentType.getD [])))

/-- `_collect_models_from_component`: the stripped, non-empty
`SupportedSystems` labels followed by the `TargetSystems` labels. -/
def collect_models_from_component (sc : SoftwareComponent) : List Str :=
  (sc.supportedLabels ++ sc.targetLabels).filterMap (fun l =>
    let s := pyStrip l
    if s.isEmpty then none else some s)

/-- The attribute scan inside the first filename loop:
`for a in ("path","Path","filename","FileName","href","src","file")`,
breaking on the first *truthy attribute value* (before stripping). -/
def firstAttrVal (el : XElem) : List Str → Str
  | [] => []
  | a :: rest =>
    match attrGet el a with
    | some v => if v.isEmpty then firstAttrVal el rest else pyStrip v
    | none => firstAttrVal el rest

/-- The `for tag in ("Path", "PackagePath", "Location", "FileName")`
loop: the first tag whose element yields a non-empty value (text, else
first truthy attribute) gives `val.split("/")[-1]`. -/
def filenameFromTags (sc : SoftwareComponent) : List Str → Str
  | [] => []
  | tag :: rest =>
    match findTag sc tag with
    | none => filenameFromTags sc rest
    | some el =>
      let val := pyStrip (el.text.getD [])
      let val := if val.isEmpty then firstAttrVal el
        ["path".data, "Path".data, "filename".data, "FileName".data,
         "href".data, "src".data, "file".data] else val
      if val.isEmpty then filenameFromTags sc rest
      else lastSlashSegment val

/-- The attribute scan of the fallback loop over `sc.iter()`: breaks only
when the stripped value is non-empty. -/
def firstAttrValStripped (el : XElem) : List Str → Str
  | [] => []
  | a :: rest =>
    match attrGet el a with
    | some v =>
      if v.isEmpty then firstAttrValStripped el rest
      else
        let val := pyStrip v
        if val.isEmpty then firstAttrValStripped el rest
        else lastSlashSegment val
    | none => firstAttrValStripped el rest

/-- The `for el in sc.iter()` fallback filename scan. -/
def filenameFromIter : List XElem → Str
  | [] => []
  | el :: rest =>
    let f := firstAttrValStripped el
      ["path".data, "Path".data, "href".data, "src".data, "file".data,
       "filename".data, "FileName".data]
    if f.isEmpty then filenameFromIter rest else f

/-- One catalog candidate (the dict appended to `candidates`). -/
structure Cand where
  name : Str
  version : Str
  released : Str
  driverid : Str
  filename : Str
  models : List Str
deriving DecidableEq

/-- The body of the `for sc in components` loop: `none` models a
`continue`, `some` the appended candidate. -/
def candOf (modelDisplay : Str) (sc : SoftwareComponent) : Option Cand :=
  if !is_cpld_catalog sc then none
  else
    let models := collect_models_from_component sc
    if models.isEmpty || !(models.any (fun lbl => display_matches modelDisplay lbl)) then
      none
    else
      let name := pyStrip ((pyOr sc.display sc.nameText).getD [])
      let version := pyStrip (sc.dellVersion.getD [])
      let rdate := pyStrip (sc.releaseDate.getD [])
      let filename :=
        let f := filenameFromTags sc
          ["Path".data, "PackagePath".data, "Location".data, "FileName".data]
        if f.isEmpty then filenameFromIter sc.allElems else f
      let did :=
        if !filename.isEmpty then extract_driverid_from_filename filename
        else driveridSearch sc.serialized
      match did with
      | none => none
      | some did =>
        some { name := name, version := version, released := rdate,
               driverid := did, filename := filename, models := models }

/-- The catalog sort key comparator:
`key=lambda x: (_parse_date(x["released"]), x["version"])`. -/
def ltCat (a b : Cand) : Bool :=
  keyLtP (parse_date a.released, a.version) (parse_date b.released, b.version)

/-- `_catalog_latest_cpld_for_model`, from the parsed component list. -/
def catalog_latest_cpld_for_model (comps : List SoftwareComponent)
    (modelDisplay : Str) : Option Resolved :=
  let candidates := comps.filterMap (candOf modelDisplay)
  if candidates.isEmpty then none
  else
    match (sortDesc ltCat candidates).head? with
    | none => none
    | some top =>
      some { driverid := top.driverid,
             url := urlTemplate ++ lowerStr top.driverid,
             version := some top.version,
             released := some top.released,
             source := "catalog".data }

/-! ### Orchestrator (`main` of `resolve_cpld_urls.py`)

`main` is a pure function of the configured model list and of oracles for
the three effectful collaborators: the JSON API, the catalog download
(decompressed bytes or a raised error; the gzip/transport failures are
one `try` block in `_download_catalog_text`), the XML parser
(`ET.fromstring` + component extraction, which is what the per-model
`try` in the catalog pass can see fail), and the process environment.
Logging and `time.sleep` have no effect on the outputs and are dropped;
file writing (`_write_overlay_and_report`) is out of scope — `main` is
modelled as returning the overlay, the diagnostic rows and the batch
warning it would write. -/

/-- One normalized entry of `models.yaml` (`_load_models_safely` output):
`name` may be `None` (dict without `name`/`model`) and `productcode` may
be `None`. -/
structure ModelEntry where
  name : Option Str := none
  productcode : Option Str := none
deriving DecidableEq

/-- One diagnostic row (a Python dict); fields that the dict does not
carry are `none`. -/
structure Row where
  model : Option Str := none
  productcode : Option Str := none
  driverid : Option Str := none
  version : Option Str := none
  released : Option Str := none
  url : Option Str := none
  source : Option Str := none
  error : Option Str := none
  warning : Option Str := none
deriving DecidableEq

/-- Python dict assignment `d[k] = v`: update the first (only) binding of
`k` in place, else append — insertion order preserved. -/
def dictInsert : List (Str × Str) → Str → Str → List (Str × Str)
  | [], k, v => [(k, v)]
  | p :: t, k, v => if p.1 = k then (k, v) :: t else p :: dictInsert t k v

/-- Python dict lookup. -/
def dictLookup : List (Str × Str) → Str → Option Str
  | [], _ => none
  | p :: t, k => if p.1 = k then some p.2 else dictLookup t k

/-- Result of one catalog download: the decompressed bytes, or the raised
error message. -/
abbrev CatalogOracle := Except Str (List Nat)

/-- `ET.fromstring(xml_text)` + component listing, or the raised parse
error message. -/
abbrev ParseOracle := Str → Except Str (List SoftwareComponent)

/-- `os.environ`. -/
abbrev EnvOracle := String → Option Str

/-- The result of `_resolve_latest_cpld_json` for one entry of the first
pass (`none` when the entry is skipped or misses). -/
def resolved1 (api : ApiOracle) (e : ModelEntry) : Option Resolved :=
  if truthy e.name && truthy e.productcode then
    resolve_latest_cpld_json api (e.productcode.getD [])
  else none

/-- The single pass-1 diagnostic row of one entry; `none` when the entry
is skipped because its name is falsy. -/
def row1 (api : ApiOracle) (e : ModelEntry) : Option Row :=
  if !truthy e.name then none
  else if !truthy e.productcode then
    some { model := e.name, error := some "missing_productcode".data }
  else
    match resolve_latest_cpld_json api (e.productcode.getD []) with
    | some res =>
      some { model := e.name, productcode := e.productcode,
             driverid := some res.driverid, version := res.version,
             released := res.released, url := some res.url,
             source := some res.source }
    | none =>
      some { model := e.name, productcode := e.productcode,
             error := some "no_cpld_from_json".data }

/-- The entry joins `unresolved` after pass 1. -/
def unresolvedP (api : ApiOracle) (e : ModelEntry) : Bool :=
  truthy e.name && (resolved1 api e).isNone

/-- The catalog resolution of one unresolved entry. -/
def resolved2 (parse : ParseOracle) (xml : Str) (e : ModelEntry) : Option Resolved :=
  match parse xml with
  | .error _ => none
  | .ok comps => catalog_latest_cpld_for_model comps (e.name.getD [])

/-- The single pass-2 diagnostic row of one unresolved entry. -/
def row2 (parse : ParseOracle) (xml : Str) (e : ModelEntry) : Row :=
  match parse xml with
  | .error msg =>
    { model := e.name, productcode := e.productcode,
      error := some ("catalog_parse_error: ".data ++ msg) }
  | .ok comps =>
    match catalog_latest_cpld_for_model comps (e.name.getD []) with
    | some res =>
      { model := e.name, productcode := e.productcode,
        driverid := some res.driverid, version := res.version,
        released := res.released, url := some res.url,
        source := some res.source }
    | none =>
      { model := e.name, productcode := e.productcode,
        error := some "no_cpld_from_catalog".data }

/-- The overlay update of one pass-1 iteration:
`overlay[name] = res["url"]` when the entry resolved. -/
def overlayStep (api : ApiOracle) (ov : List (Str × Str)) (e : ModelEntry) :
    List (Str × Str) :=
  match resolved1 api e, e.name with
  | some res, some s => dictInsert ov s res.url
  | _, _ => ov

/-- The overlay update of one catalog-pass iteration. -/
def overlayStep2 (parse : ParseOracle) (xml : Str) (ov : List (Str × Str))
    (e : ModelEntry) : List (Str × Str) :=
  match resolved2 parse xml e, e.name with
  | some res, some s => dictInsert ov s res.url
  | _, _ => ov

/-- The outputs `main` writes. -/
structure RunOut where
  overlay : List (Str × Str)
  details : List Row
  warn : Option Str
deriving DecidableEq

def staticFallbackUrl : Str :=
  "https://www.dell.com/support/home/en-us/drivers/driversdetails?driverid=9n4dh".data

def staticFallbackRow : Row :=
  { model := some "R640".data, productcode := some "poweredge-r640".data,
    driverid := some "9N4DH".data, version := some "(unknown)".data,
    released := some "(unknown)".data, url := some staticFallbackUrl,
    source := some "static_fallback".data }

/-- The unresolved list after pass 1. -/
def unresolvedOf (models : List ModelEntry) (api : ApiOracle) : List ModelEntry :=
  models.filter (unresolvedP api)

/-- The decoded catalog text (`xml_text`): empty when no model is
unresolved (no download attempted) or the download raised. -/
def mainXml (models : List ModelEntry) (api : ApiOracle)
    (download : CatalogOracle) : Str :=
  if (unresolvedOf models api).isEmpty then []
  else
    match download with
    | .ok raw => decodeCatalog raw
    | .error _ => []

/-- The `catalog_download_error` pseudo-row appended to the report when
the download raises during the fallback pass. -/
def mainWarnRows (models : List ModelEntry) (api : ApiOracle)
    (download : CatalogOracle) : List Row :=
  if (unresolvedOf models api).isEmpty then []
  else
    match download with
    | .ok _ => []
    | .error e => [{ warning := some ("catalog_download_error: ".data ++ e) }]

/-- The rows of the catalog fallback pass (one per unresolved model,
emitted only when `xml_text` is non-empty). -/
def mainCatalogRows (models : List ModelEntry) (api : ApiOracle)
    (download : CatalogOracle) (parse : ParseOracle) : List Row :=
  if (unresolvedOf models api).isEmpty ∨ (mainXml models api download).isEmpty then []
  else (unresolvedOf models api).map (row2 parse (mainXml models api download))

/-- The overlay after both passes. -/
def mainOverlay2 (models : List ModelEntry) (api : ApiOracle)
    (download : CatalogOracle) (parse : ParseOracle) : List (Str × Str) :=
  if (unresolvedOf models api).isEmpty ∨ (mainXml models api download).isEmpty then
    models.foldl (overlayStep api) []
  else
    (unresolvedOf models api).foldl
      (overlayStep2 parse (mainXml models api download))
      (models.foldl (overlayStep api) [])

/-- The `ALLOW_STATIC_FALLBACK` gate: empty overlay and env flag set. -/
def mainStatic (models : List ModelEntry) (api : ApiOracle)
    (download : CatalogOracle) (parse : ParseOracle) (env : EnvOracle) : Bool :=
  (mainOverlay2 models api download parse).isEmpty &&
    (env "ALLOW_STATIC_FALLBACK" == some "1".data)

def mainStaticRows (models : List ModelEntry) (api : ApiOracle)
    (download : CatalogOracle) (parse : ParseOracle) (env : EnvOracle) : List Row :=
  if mainStatic models api download parse env then [staticFallbackRow] else []

def mainOverlayF (models : List ModelEntry) (api : ApiOracle)
    (download : CatalogOracle) (parse : ParseOracle) (env : EnvOracle) :
    List (Str × Str) :=
  if mainStatic models api download parse env then
    dictInsert (mainOverlay2 models api download parse) "R640".data
      staticFallbackUrl
  else mainOverlay2 models api download parse

/-- `main` of `resolve_cpld_urls.py`, after a successful
`_load_models_safely` (the fatal configuration path writes empty outputs
with warning `fatal_models_load: ...` before any resolution and is not
covered by the claims).  Pass 1 appends one row per named entry and
records resolved URLs in the overlay; the catalog is fetched only when
some model is unresolved; pass 2 appends one row per unresolved model
when the decoded catalog text is non-empty; the static fallback fires
only for an empty overlay with `ALLOW_STATIC_FALLBACK=1`; the batch
warning is set exactly when the final overlay is empty. -/
def main (models : List ModelEntry) (api : ApiOracle) (download : CatalogOracle)
    (parse : ParseOracle) (env : EnvOracle) : RunOut :=
  { overlay := mainOverlayF models api download parse env,
    details := models.filterMap (row1 api)
      ++ mainWarnRows models api download
      ++ mainCatalogRows models api download parse
      ++ mainStaticRows models api download parse env,
    warn := if (mainOverlayF models api download parse env).isEmpty then
        some "Resolver found no CPLD URLs".data
      else none }

/-! ## Supporting lemmas -/

theorem checkDate_some {y m d : Nat} {dt : DateT} (h : checkDate y m d = some dt) :
    dt.y = y ∧ dt.m = m ∧ dt.d = d ∧ 1 ≤ y ∧ y ≤ 9999 ∧ 1 ≤ m ∧ m ≤ 12 ∧
      1 ≤ d ∧ d ≤ 31 := by
  unfold checkDate at h
  split at h
  · rename_i hc
    simp only [Bool.and_eq_true, decide_eq_true_eq] at hc
    cases h
    have hd31 : daysInMonth y m ≤ 31 := by
      unfold daysInMonth
      split <;> [split; split] <;> omega
    refine ⟨rfl, rfl, rfl, ?_⟩
    omega
  · exact absurd h (by simp)

theorem fmtDayMonthNameYear_checks {s : Str} {dt : DateT}
    (h : fmtDayMonthNameYear s = some dt) :
    ∃ y m d, checkDate y m d = some dt := by
  unfold fmtDayMonthNameYear at h
  repeat' split at h
  all_goals try exact ⟨_, _, _, h⟩
  all_goals exact Option.noConfusion h

theorem fmtIso_checks {s : Str} {dt : DateT} (h : fmtIso s = some dt) :
    ∃ y m d, checkDate y m d = some dt := by
  unfold fmtIso at h
  repeat' split at h
  all_goals try exact ⟨_, _, _, h⟩
  all_goals exact Option.noConfusion h

theorem fmtSlash_checks {s : Str} {dt : DateT} (h : fmtSlash s = some dt) :
    ∃ y m d, checkDate y m d = some dt := by
  unfold fmtSlash at h
  repeat' split at h
  all_goals try exact ⟨_, _, _, h⟩
  all_goals exact Option.noConfusion h

theorem tryFormats_checks {s : Str} {dt : DateT} (h : tryFormats s = some dt) :
    ∃ y m d, checkDate y m d = some dt := by
  unfold tryFormats tryFormatsOn at h
  split at h
  · rename_i heq
    cases h
    exact fmtDayMonthNameYear_checks heq
  · split at h
    · rename_i heq
      cases h
      exact fmtIso_checks heq
    · exact fmtSlash_checks h

theorem tryFormats_ord_ge {s : Str} {dt : DateT} (h : tryFormats s = some dt) :
    minOrd ≤ dateOrd dt ∧ (dateOrd dt = minOrd ↔ dt = dateMin) := by
  obtain ⟨y, m, d, hc⟩ := tryFormats_checks h
  obtain ⟨hy, hm, hd, h1, _, h2, h3, h4, h5⟩ := checkDate_some hc
  constructor
  · simp only [minOrd, dateMin, dateOrd]
    omega
  · constructor
    · intro he
      simp only [minOrd, dateMin, dateOrd] at he
      have h9 : dt.y = 1 ∧ dt.m = 1 ∧ dt.d = 1 := by omega
      cases dt
      simp only [dateMin]
      simp_all
    · intro he
      rw [he]
      rfl

theorem findSome?_mem {α β : Type} {f : α → Option β} {l : List α} {r : β}
    (h : l.findSome? f = some r) : ∃ a, a ∈ l ∧ f a = some r := by
  induction l with
  | nil => simp [List.findSome?] at h
  | cons x t ih =>
    rw [List.findSome?_cons] at h
    revert h
    split
    · intro h
      cases h
      exact ⟨x, List.mem_cons_self x t, by assumption⟩
    · intro h
      obtain ⟨a, ha, hf⟩ := ih h
      exact ⟨a, List.mem_cons_of_mem x ha, hf⟩

/-- Any result of one platform-code attempt satisfies the URL template
invariant. -/
theorem tryOscode_url {api : ApiOracle} {pc c : Str} {r : Resolved}
    (h : tryOscode api pc c = some r) :
    r.url = urlTemplate ++ lowerStr r.driverid := by
  simp only [tryOscode] at h
  repeat' split at h
  all_goals try exact Option.noConfusion h
  cases h
  rfl

/-- Any result of the catalog resolver satisfies the URL template
invariant. -/
theorem catalog_url {comps : List SoftwareComponent} {nm : Str} {r : Resolved}
    (h : catalog_latest_cpld_for_model comps nm = some r) :
    r.url = urlTemplate ++ lowerStr r.driverid := by
  simp only [catalog_latest_cpld_for_model] at h
  repeat' split at h
  all_goals try exact Option.noConfusion h
  cases h
  rfl

/-! ## Claims -/

/-- C7 (amended): `parse_date` is total by construction; for every input
string it returns the sentinel `minOrd` (the ordinal of `datetime.min`)
when no format of its fixed ordered list matches, and the sentinel is a
lower bound of — but not strictly below — the ordinal of every parsable
date: equality occurs exactly for the minimum representable date
`0001-01-01`. -/
theorem c7_parse_date_sentinel :
    (∀ s : Str, minOrd ≤ parse_date s) ∧
    (∀ s : Str, tryFormats s = none → parse_date s = minOrd) ∧
    (∀ (s : Str) (dt : DateT), tryFormats s = some dt →
      minOrd ≤ dateOrd dt ∧ (dateOrd dt = minOrd ↔ dt = dateMin)) := by
  refine ⟨?_, ?_, ?_⟩
  · intro s
    unfold parse_date
    split
    · exact (tryFormats_ord_ge (by assumption)).1
    · exact Nat.le_refl _
  · intro s h
    unfold parse_date
    rw [h]
  · intro s dt h
    exact tryFormats_ord_ge h

/-- C7 counterexample: `"0001-01-01"` is parsable (via the ISO format),
yet its ordinal equals the sentinel — the sentinel does not compare
strictly below the ordinal of every parsable date. -/
theorem c7_counterexample :
    tryFormats "0001-01-01".data = some dateMin ∧
    parse_date "0001-01-01".data = minOrd ∧
    ¬ minOrd < dateOrd dateMin :=
  ⟨by decide, by decide, by decide⟩

/-- C7 witness: the amended bound instantiated at a parsable date. -/
theorem c7_witness :
    tryFormats "2024-06-01".data = some ⟨2024, 6, 1⟩ ∧
    minOrd ≤ dateOrd ⟨2024, 6, 1⟩ ∧ parse_date "garbage".data = minOrd :=
  ⟨by decide,
   (c7_parse_date_sentinel.2.2 "2024-06-01".data ⟨2024, 6, 1⟩ (by decide)).1,
   c7_parse_date_sentinel.2.1 "garbage".data (by decide)⟩

/-- C2: every `ResolvedDriver` produced by either resolver carries
`url = urlTemplate ++ lower(driver_id)`; the mapping
`driver_id → url` is the pure total function
`fun did => urlTemplate ++ lowerStr did` of the driver id alone; and for
driver id `"9N4DH"` the url ends in `"driversdetails?driverid=9n4dh"`. -/
theorem c2_url_invariant :
    (∀ (api : ApiOracle) (pc : Str) (r : Resolved),
      resolve_latest_cpld_json api pc = some r →
        r.url = urlTemplate ++ lowerStr r.driverid) ∧
    (∀ (comps : List SoftwareComponent) (nm : Str) (r : Resolved),
      catalog_latest_cpld_for_model comps nm = some r →
        r.url = urlTemplate ++ lowerStr r.driverid) ∧
    ("driversdetails?driverid=9n4dh".data.isSuffixOf
      (urlTemplate ++ lowerStr "9N4DH".data) = true) := by
  refine ⟨?_, ?_, by decide⟩
  · intro api pc r h
    unfold resolve_latest_cpld_json at h
    obtain ⟨c, _, hc⟩ := findSome?_mem h
    exact tryOscode_url hc
  · intro comps nm r h
    exact catalog_url h

/-- A concrete API record realizing the spec's end-to-end example: one
CPLD item whose filename embeds `_9N4DH_`. -/
def sampleCpldRec : JsonRec :=
  { DriverName := some "Dell EMC Server CPLD firmware".data,
    FileFrmtInfo := some { FileName := some "CPLD_Firmware_9N4DH_WN64_1.0.3.EXE".data } }

def sampleApi : ApiOracle := fun _ _ => .ok [sampleCpldRec]

/-- C2 witness: the spec's end-to-end example — an API response whose
single CPLD item has a filename embedding `_9N4DH_` resolves to driver id
`"9N4DH"` with the template URL ending in `9n4dh`. -/
theorem c2_witness :
    (resolve_latest_cpld_json sampleApi "poweredge-r640".data).map
        (fun r => (r.driverid, r.url)) =
      some ("9N4DH".data, urlTemplate ++ lowerStr "9N4DH".data) := by
  have hr : resolve_latest_cpld_json sampleApi "poweredge-r640".data =
      some { driverid := "9N4DH".data,
             url := urlTemplate ++ lowerStr "9N4DH".data,
             version := none, released := none,
             source := "json:NAA".data } := by decide
  have h2 := c2_url_invariant.1 sampleApi "poweredge-r640".data _ hr
  rw [hr]
  simp [h2]

/-- `tryOscode` consults the oracle only at its own platform code. -/
theorem tryOscode_congr {api api' : ApiOracle} {pc c : Str}
    (h : api' pc c = api pc c) :
    tryOscode api' pc c = tryOscode api pc c := by
  unfold tryOscode
  rw [h]

/-- C3: `resolve_via_api` iterates the fixed ordered platform-code list:
a transport/parsing failure of the oracle for one code is absorbed into a
failed attempt; the first code whose attempt yields a usable result
determines the output, and any oracle that agrees on the codes up to that
one (regardless of its behaviour on later codes) produces the same
result; when every code's attempt fails the resolver returns `none`
rather than raising. -/
theorem c3_resolve_via_api (api api' : ApiOracle) (pc : Str) :
    (∀ (c e : Str), api pc c = .error e → tryOscode api pc c = none) ∧
    (∀ (i : Nat) (c : Str) (r : Resolved),
      oscodes.get? i = some c →
      (∀ (j : Nat) (c' : Str), j < i → oscodes.get? j = some c' →
        tryOscode api pc c' = none) →
      tryOscode api pc c = some r →
      (∀ (j : Nat) (c' : Str), j ≤ i → oscodes.get? j = some c' →
        api' pc c' = api pc c') →
      resolve_latest_cpld_json api' pc = some r) ∧
    ((∀ c, c ∈ oscodes → tryOscode api pc c = none) →
      resolve_latest_cpld_json api pc = none) := by
  refine ⟨?_, ?_, ?_⟩
  · intro c e h
    unfold tryOscode
    rw [h]
  · intro i c r hget hprev hc hagree
    have hcongr : ∀ (j : Nat) (c' : Str), j ≤ i → oscodes.get? j = some c' →
        tryOscode api' pc c' = tryOscode api pc c' := by
      intro j c' hj hg
      exact tryOscode_congr (hagree j c' hj hg)
    match i, hget with
    | 0, hget =>
      simp only [oscodes, List.get?] at hget
      cases hget
      have h0 := (hcongr 0 _ (Nat.le_refl 0) rfl).trans hc
      simp [resolve_latest_cpld_json, oscodes, List.findSome?_cons, h0]
    | 1, hget =>
      simp only [oscodes, List.get?] at hget
      cases hget
      have h0 := (hcongr 0 _ (by omega) rfl).trans (hprev 0 _ (by omega) rfl)
      have h1 := (hcongr 1 _ (by omega) rfl).trans hc
      simp [resolve_latest_cpld_json, oscodes, List.findSome?_cons, h0, h1]
    | 2, hget =>
      simp only [oscodes, List.get?] at hget
      cases hget
      have h0 := (hcongr 0 _ (by omega) rfl).trans (hprev 0 _ (by omega) rfl)
      have h1 := (hcongr 1 _ (by omega) rfl).trans (hprev 1 _ (by omega) rfl)
      have h2 := (hcongr 2 _ (by omega) rfl).trans hc
      simp [resolve_latest_cpld_json, oscodes, List.findSome?_cons, h0, h1, h2]
    | 3, hget =>
      simp only [oscodes, List.get?] at hget
      cases hget
      have h0 := (hcongr 0 _ (by omega) rfl).trans (hprev 0 _ (by omega) rfl)
      have h1 := (hcongr 1 _ (by omega) rfl).trans (hprev 1 _ (by omega) rfl)
      have h2 := (hcongr 2 _ (by omega) rfl).trans (hprev 2 _ (by omega) rfl)
      have h3 := (hcongr 3 _ (by omega) rfl).trans hc
      simp [resolve_latest_cpld_json, oscodes, List.findSome?_cons, h0, h1, h2, h3]
    | n + 4, hget =>
      simp [oscodes, List.get?] at hget
  · intro h
    have h0 := h _ (show "NAA".data ∈ oscodes by simp [oscodes])
    have h1 := h _ (show "W2022".data ∈ oscodes by simp [oscodes])
    have h2 := h _ (show "WT64A".data ∈ oscodes by simp [oscodes])
    have h3 := h _ (show "UBT20".data ∈ oscodes by simp [oscodes])
    simp [resolve_latest_cpld_json, oscodes, List.findSome?_cons, h0, h1, h2, h3]

/-- An API oracle that raises for the first platform code and succeeds
for the later ones. -/
def flakyApi : ApiOracle := fun _ os =>
  if os = "NAA".data then .error "HTTP 500".data else .ok [sampleCpldRec]

/-- C3 witness: with a transport failure on the first platform code, the
second code's result is returned. -/
theorem c3_witness :
    resolve_latest_cpld_json flakyApi "poweredge-r640".data =
      some { driverid := "9N4DH".data,
             url := urlTemplate ++ lowerStr "9N4DH".data,
             version := none, released := none,
             source := "json:W2022".data } := by
  refine (c3_resolve_via_api flakyApi flakyApi "poweredge-r640".data).2.1
    1 "W2022".data _ (by decide) ?_ (by decide) ?_
  · intro j c' hj hg
    have hj0 : j = 0 := by omega
    subst hj0
    simp only [oscodes, List.get?] at hg
    cases hg
    decide
  · intro j c' hj hg
    rfl

/-- Position lookup after `drop`. -/
theorem get?_drop_add {α : Type} : ∀ (l : List α) (i j : Nat),
    (l.drop i).get? j = l.get? (i + j)
  | _, 0, _ => by simp
  | [], i + 1, j => by simp
  | x :: t, i + 1, j => by
    rw [Nat.succ_add]
    exact get?_drop_add t i j

/-- Position lookup under `take`. -/
theorem get?_take_lt {α : Type} : ∀ (l : List α) (n j : Nat), j < n →
    (l.take n).get? j = l.get? j
  | _, 0, _, h => by omega
  | [], n + 1, j, _ => by simp
  | x :: t, n + 1, 0, _ => by simp
  | x :: t, n + 1, j + 1, h => get?_take_lt t n j (by omega)

theorem subAt_le {b l : Str} {i : Nat} (hb : b ≠ []) (h : subAt b l i = true) :
    i + b.length ≤ l.length := by
  simp only [subAt, decide_eq_true_eq] at h
  have hlen := congrArg List.length h
  simp only [List.length_take, List.length_drop] at hlen
  have hpos : 0 < b.length := List.length_pos.mpr hb
  omega

theorem subAt_get? {b l : Str} {i : Nat} (h : subAt b l i = true) :
    ∀ j, j < b.length → l.get? (i + j) = b.get? j := by
  intro j hj
  simp only [subAt, decide_eq_true_eq] at h
  calc l.get? (i + j) = (l.drop i).get? j := (get?_drop_add l i j).symm
    _ = ((l.drop i).take b.length).get? j := (get?_take_lt _ _ _ hj).symm
    _ = b.get? j := by rw [h]

/-- The character at position `i`, if any, is a letter or a digit. -/
def alnumAt (l : Str) (i : Nat) : Bool :=
  match l.get? i with
  | some c => c.isAlphanum
  | none => false

theorem boundaryAt_succ (l : Str) (k : Nat) :
    boundaryAt l (k + 1) = (wordAt l k != wordAt l (k + 1)) := rfl

theorem wordAt_of_alnumAt {l : Str} {i : Nat} (h : alnumAt l i = true) :
    wordAt l i = true := by
  unfold alnumAt at h
  unfold wordAt
  revert h
  split
  · intro h
    simp [isWordChar, h]
  · intro h
    exact absurd h (by simp)

/-- C5: the model-label matcher agrees with the claimed characterization
— a match holds exactly when the canonical catalog label equals one of
the generated brand-prefixed variants or the canonical bare name occurs
word-boundary-delimited inside the canonical label — and the four spec
examples behave as claimed. -/
theorem c5_display_matches :
    (∀ name display : Str,
      display_matches name display =
        ((labels_for_name name).contains (canon display) ||
          wordBoundarySearch (canon name) (canon display))) ∧
    display_matches "R640".data "PowerEdge R640".data = true ∧
    display_matches "R640".data "Dell EMC PowerEdge R640".data = true ∧
    display_matches "R640".data "R640".data = true ∧
    display_matches "R64".data "PowerEdge R640".data = false := by
  refine ⟨?_, by decide, by decide, by decide, by decide⟩
  intro name display
  unfold display_matches
  dsimp only
  cases hc : (labels_for_name name).contains (canon display) <;> simp

/-- C10: when the canonicalized model name is non-empty, consists of
letters and digits only, and every occurrence of it inside the
canonicalized catalog label is immediately followed by a letter or digit
(the name occurs only as a proper prefix of a longer alphanumeric token),
the word-boundary fallback branch of the matcher cannot fire; in
particular `matches("R650", "PowerEdge R6515")` is false. -/
theorem c10_word_boundary_guard (name label : Str)
    (hne : canon name ≠ [])
    (halnum : (canon name).all Char.isAlphanum = true)
    (hocc : ∀ i, i < (canon label).length →
      subAt (canon name) (canon label) i = true →
      alnumAt (canon label) (i + (canon name).length) = true) :
    wordBoundarySearch (canon name) (canon label) = false ∧
    display_matches "R650".data "PowerEdge R6515".data = false := by
  refine ⟨?_, by decide⟩
  by_contra hfalse
  rw [Bool.not_eq_false] at hfalse
  unfold wordBoundarySearch at hfalse
  rw [List.any_eq_true] at hfalse
  obtain ⟨i, _, hm⟩ := hfalse
  simp only [wbMatchAt, Bool.and_eq_true] at hm
  obtain ⟨⟨hsub, _⟩, hbe⟩ := hm
  -- the occurrence fits inside the label and the name is non-empty
  have hle := subAt_le hne hsub
  obtain ⟨np, hnp⟩ : ∃ np, (canon name).length = np + 1 := by
    refine ⟨(canon name).length - 1, ?_⟩
    have : (canon name).length ≠ 0 := by
      intro h0
      exact hne (List.eq_nil_of_length_eq_zero h0)
    omega
  have hilt : i < (canon label).length := by omega
  -- character before the end boundary: the name's last character
  have hlast : ∃ c, (canon name).get? np = some c ∧ c.isAlphanum = true := by
    have hnp' : np < (canon name).length := by omega
    rw [List.get?_eq_get hnp']
    refine ⟨_, rfl, ?_⟩
    rw [List.all_eq_true] at halnum
    exact halnum _ (List.get_mem _ _ _)
  obtain ⟨c, hcg, hca⟩ := hlast
  have hw1 : wordAt (canon label) (i + np) = true := by
    have := subAt_get? hsub np (by omega)
    unfold wordAt
    rw [this, hcg]
    simp [isWordChar, hca]
  -- character after the end boundary: a letter or digit by hypothesis
  have hw2 : wordAt (canon label) (i + (canon name).length) = true :=
    wordAt_of_alnumAt (hocc i hilt hsub)
  -- so `\b` fails at the end of the occurrence
  have hadd : i + (canon name).length = (i + np) + 1 := by omega
  rw [hadd] at hbe hw2
  rw [boundaryAt_succ, hw1, hw2] at hbe
  simp at hbe

/-- C10 witness: the guard instantiated at `R650` vs `PowerEdge R6515`.
-/
theorem c10_witness :
    wordBoundarySearch (canon "R650".data) (canon "PowerEdge R6515".data) = false ∧
    display_matches "R650".data "PowerEdge R6515".data = false :=
  c10_word_boundary_guard "R650".data "PowerEdge R6515".data
    (by decide) (by decide) (by decide)

/-- One UTF-8 step never lengthens the remaining byte list. -/
theorem utf8Step_length {b : Nat} {rest r : List Nat} {c : Char}
    (h : utf8Step b rest = some (c, r)) : r.length ≤ rest.length := by
  unfold utf8Step at h
  repeat' split at h
  all_goals first
    | (cases h; simp; try omega)
    | exact Option.noConfusion h

/-- The fuel of `utf8DecodeAux` is unobservable once it covers the byte
count. -/
theorem utf8DecodeAux_fuel : ∀ (f1 f2 : Nat) (l : List Nat),
    l.length ≤ f1 → l.length ≤ f2 → utf8DecodeAux f1 l = utf8DecodeAux f2 l := by
  intro f1
  induction f1 with
  | zero =>
    intro f2 l h1 _
    have : l = [] := List.eq_nil_of_length_eq_zero (by omega)
    subst this
    cases f2 <;> rfl
  | succ f ih =>
    intro f2 l h1 h2
    cases l with
    | nil => cases f2 <;> rfl
    | cons b rest =>
      cases f2 with
      | zero => simp at h2
      | succ f2' =>
        show (match utf8Step b rest with
          | some (c, r) => (utf8DecodeAux f r).map (fun t => c :: t)
          | none => none) =
          (match utf8Step b rest with
          | some (c, r) => (utf8DecodeAux f2' r).map (fun t => c :: t)
          | none => none)
        cases hs : utf8Step b rest with
        | none => rfl
        | some p =>
          obtain ⟨c, r⟩ := p
          have hle := utf8Step_length hs
          simp only [List.length_cons] at h1 h2
          dsimp only
          rw [ih f2' r (by omega) (by omega)]

/-- `utf8Step` consumes a UTF-8 byte-order mark as the single character
`U+FEFF`. -/
theorem utf8Step_bom (rest : List Nat) :
    utf8Step 0xEF (0xBB :: 0xBF :: rest) = some (Char.ofNat 0xFEFF, rest) := by
  unfold utf8Step
  norm_num

/-- `utf-8` decoding of a BOM-signed byte list: the signature decodes to
`U+FEFF` followed by the decoding of the remainder. -/
theorem utf8Decode_bom (rest : List Nat) :
    utf8Decode (0xEF :: 0xBB :: 0xBF :: rest) =
      (utf8Decode rest).map (fun t => Char.ofNat 0xFEFF :: t) := by
  show utf8DecodeAux (rest.length + 3) (0xEF :: 0xBB :: 0xBF :: rest) =
    (utf8DecodeAux rest.length rest).map (fun t => Char.ofNat 0xFEFF :: t)
  rw [show rest.length + 3 = (rest.length + 2) + 1 from rfl]
  show (match utf8Step 0xEF (0xBB :: 0xBF :: rest) with
    | some (c, r) => (utf8DecodeAux (rest.length + 2) r).map (fun t => c :: t)
    | none => none) = _
  rw [utf8Step_bom]
  dsimp only
  rw [utf8DecodeAux_fuel (rest.length + 2) rest.length rest (by omega) (by omega)]

/-- `utf-8-sig` against plain `utf-8`: identical except that a leading
`EF BB BF` signature is stripped before decoding. -/
theorem utf8SigDecode_eq (raw : List Nat) :
    utf8SigDecode raw = utf8Decode raw ∨
    ∃ rest, raw = 0xEF :: 0xBB :: 0xBF :: rest ∧
      utf8SigDecode raw = utf8Decode rest := by
  unfold utf8SigDecode
  split
  · rename_i rest
    exact Or.inr ⟨rest, rfl, rfl⟩
  · exact Or.inl rfl

/-- C8: the catalog decoder tries `utf-16le`, `utf-16`, `utf-8-sig`,
`utf-8` strictly in that order and returns the first success; when every
strict attempt fails it falls back to lossy UTF-8 decoding (total by
construction) instead of raising; and bytes that fail both wide UTF-16
decodes but are valid UTF-8 still yield that text (minus the one-character
`U+FEFF` signature when the bytes carry one, in which case the
`utf-8-sig` entry of the cascade is the one that fires). -/
theorem c8_decode_cascade :
    (∀ (raw : List Nat) (t : Str),
      utf16leDecode raw = some t → decodeCatalog raw = t) ∧
    (∀ (raw : List Nat) (t : Str), utf16leDecode raw = none →
      utf16Decode raw = some t → decodeCatalog raw = t) ∧
    (∀ (raw : List Nat) (t : Str), utf16leDecode raw = none →
      utf16Decode raw = none → utf8SigDecode raw = some t →
      decodeCatalog raw = t) ∧
    (∀ (raw : List Nat) (t : Str), utf16leDecode raw = none →
      utf16Decode raw = none → utf8SigDecode raw = none →
      utf8Decode raw = some t → decodeCatalog raw = t) ∧
    (∀ raw : List Nat, utf16leDecode raw = none → utf16Decode raw = none →
      utf8SigDecode raw = none → utf8Decode raw = none →
      decodeCatalog raw = utf8Replace raw) ∧
    (∀ (raw : List Nat) (t : Str), utf16leDecode raw = none →
      utf16Decode raw = none → utf8Decode raw = some t →
      decodeCatalog raw = t ∨
        ∃ t', t = Char.ofNat 0xFEFF :: t' ∧ decodeCatalog raw = t') := by
  have hfire : ∀ (raw : List Nat) (t : Str), utf16leDecode raw = none →
      utf16Decode raw = none → utf8SigDecode raw = some t →
      decodeCatalog raw = t := by
    intro raw t h1 h2 h3
    unfold decodeCatalog
    rw [h1, h2, h3]
  refine ⟨?_, ?_, hfire, ?_, ?_, ?_⟩
  · intro raw t h1
    unfold decodeCatalog
    rw [h1]
  · intro raw t h1 h2
    unfold decodeCatalog
    rw [h1, h2]
  · intro raw t h1 h2 h3 h4
    unfold decodeCatalog
    rw [h1, h2, h3, h4]
  · intro raw h1 h2 h3 h4
    unfold decodeCatalog
    rw [h1, h2, h3, h4]
  · intro raw t h1 h2 h8
    rcases utf8SigDecode_eq raw with hs | ⟨rest, hraw, hs⟩
    · exact Or.inl (hfire raw t h1 h2 (hs.trans h8))
    · subst hraw
      rw [utf8Decode_bom] at h8
      cases hrest : utf8Decode rest with
      | none =>
        rw [hrest] at h8
        exact absurd h8 (by simp)
      | some t' =>
        rw [hrest] at h8
        refine Or.inr ⟨t', ?_, ?_⟩
        · simpa using h8.symm
        · exact hfire _ t' h1 h2 (hs.trans hrest)

/-- C8 witness: a single ASCII byte fails both wide decodes (odd length)
and decodes as UTF-8 through the cascade without error. -/
theorem c8_witness : decodeCatalog [0x41] = ['A'] := by
  rcases c8_decode_cascade.2.2.2.2.2 [0x41] ['A'] (by decide) (by decide)
      (by decide) with h | ⟨t', ht, _⟩
  · exact h
  · have hh := congrArg List.head? ht
    simp only [List.head?] at hh
    exact absurd hh (by decide)

/-! ### Order laws for the sort-key comparators -/

theorem lexLt_irrefl : ∀ s : Str, lexLt s s = false
  | [] => rfl
  | a :: r => by
    simp only [lexLt, lt_irrefl a, if_false]
    exact lexLt_irrefl r

theorem lexLt_connex : ∀ s1 s2 : Str, lexLt s1 s2 = false → lexLt s2 s1 = false →
    s1 = s2
  | [], [], _, _ => rfl
  | [], _ :: _, h1, _ => by simp [lexLt] at h1
  | _ :: _, [], _, h2 => by simp [lexLt] at h2
  | a :: r, b :: s, h1, h2 => by
    simp only [lexLt] at h1 h2
    by_cases hab : a < b
    · rw [if_pos hab] at h1
      exact absurd h1 (by simp)
    · rw [if_neg hab] at h1
      by_cases hba : b < a
      · rw [if_pos hba] at h2
        exact absurd h2 (by simp)
      · rw [if_neg hba, if_neg hab] at h2
        rw [if_neg hba] at h1
        have hab' : a = b := le_antisymm (not_lt.mp hba) (not_lt.mp hab)
        rw [hab', lexLt_connex r s h1 h2]

theorem lexLt_trans : ∀ s1 s2 s3 : Str, lexLt s1 s2 = true → lexLt s2 s3 = true →
    lexLt s1 s3 = true
  | [], [], _, h1, _ => by simp [lexLt] at h1
  | _, _ :: _, [], _, h2 => by simp [lexLt] at h2
  | [], _ :: _, _ :: _, _, _ => rfl
  | _ :: _, [], _, h1, _ => by simp [lexLt] at h1
  | a :: r, b :: s, c :: t, h1, h2 => by
    simp only [lexLt] at h1 h2 ⊢
    by_cases hab : a < b
    · by_cases hbc : b < c
      · rw [if_pos (lt_trans hab hbc)]
      · rw [if_neg hbc] at h2
        by_cases hcb : c < b
        · rw [if_pos hcb] at h2
          exact absurd h2 (by simp)
        · have hbc' : b = c := le_antisymm (not_lt.mp hcb) (not_lt.mp hbc)
          rw [if_pos (hbc' ▸ hab)]
    · rw [if_neg hab] at h1
      by_cases hba : b < a
      · rw [if_pos hba] at h1
        exact absurd h1 (by simp)
      · rw [if_neg hba] at h1
        have hab' : a = b := le_antisymm (not_lt.mp hba) (not_lt.mp hab)
        subst hab'
        by_cases hac : a < c
        · rw [if_pos hac]
        · rw [if_neg hac] at h2 ⊢
          by_cases hca : c < a
          · rw [if_pos hca] at h2
            exact absurd h2 (by simp)
          · rw [if_neg hca] at h2 ⊢
            exact lexLt_trans r s t h1 h2

theorem lexLt_negtrans (s1 s2 s3 : Str) (h1 : lexLt s1 s2 = false)
    (h2 : lexLt s2 s3 = false) : lexLt s1 s3 = false := by
  cases h13 : lexLt s1 s3 with
  | false => rfl
  | true =>
    cases h21 : lexLt s2 s1 with
    | false =>
      have := lexLt_connex s1 s2 h1 h21
      subst this
      exact absurd h13 (by rw [h2]; simp)
    | true =>
      have := lexLt_trans s2 s1 s3 h21 h13
      exact absurd this (by rw [h2]; simp)

theorem keyLtT_irrefl (a : Nat × Nat × Str) : keyLtT a a = false := by
  unfold keyLtT
  simp [lexLt_irrefl]

theorem keyLtT_trans {a b c : Nat × Nat × Str} (h1 : keyLtT a b = true)
    (h2 : keyLtT b c = true) : keyLtT a c = true := by
  unfold keyLtT at h1 h2 ⊢
  split_ifs at h1 h2 ⊢ <;>
    first
      | rfl
      | omega
      | exact lexLt_trans _ _ _ h1 h2

theorem keyLtT_negtrans {a b c : Nat × Nat × Str} (h1 : keyLtT a b = false)
    (h2 : keyLtT b c = false) : keyLtT a c = false := by
  unfold keyLtT at h1 h2 ⊢
  split_ifs at h1 h2 ⊢ <;>
    first
      | rfl
      | omega
      | exact lexLt_negtrans _ _ _ h1 h2

theorem keyLtP_irrefl (a : Nat × Str) : keyLtP a a = false := by
  unfold keyLtP
  simp [lexLt_irrefl]

theorem keyLtP_trans {a b c : Nat × Str} (h1 : keyLtP a b = true)
    (h2 : keyLtP b c = true) : keyLtP a c = true := by
  unfold keyLtP at h1 h2 ⊢
  split_ifs at h1 h2 ⊢ <;>
    first
      | rfl
      | omega
      | exact lexLt_trans _ _ _ h1 h2

theorem keyLtP_negtrans {a b c : Nat × Str} (h1 : keyLtP a b = false)
    (h2 : keyLtP b c = false) : keyLtP a c = false := by
  unfold keyLtP at h1 h2 ⊢
  split_ifs at h1 h2 ⊢ <;>
    first
      | rfl
      | omega
      | exact lexLt_negtrans _ _ _ h1 h2

/-! ### What `sort(key=..., reverse=True)[0]` selects

For a comparator that is irreflexive, transitive, and whose negation is
transitive (all three hold for the key comparators above), the head of
the stable descending sort is the first-seen maximum: everything before
it in the input is strictly smaller, nothing after it is strictly
greater. -/

theorem lt_step_up {α : Type} {lt : α → α → Bool}
    (hneg : ∀ a b c, lt a b = false → lt b c = false → lt a c = false)
    {m y z : α} (h1 : lt m y = true) (h2 : lt z y = false) : lt m z = true := by
  cases h3 : lt m z with
  | true => rfl
  | false => exact absurd h1 (by rw [hneg m z y h3 h2]; simp)

theorem lt_step_down {α : Type} {lt : α → α → Bool}
    (hneg : ∀ a b c, lt a b = false → lt b c = false → lt a c = false)
    {m y z : α} (h1 : lt m y = false) (h2 : lt m z = true) : lt y z = true := by
  cases h3 : lt y z with
  | true => rfl
  | false => exact absurd h2 (by rw [hneg m y z h1 h3]; simp)

theorem lt_asymmB {α : Type} {lt : α → α → Bool}
    (hirr : ∀ a, lt a a = false)
    (htr : ∀ a b c, lt a b = true → lt b c = true → lt a c = true)
    {a b : α} (h : lt a b = true) : lt b a = false := by
  cases h2 : lt b a with
  | false => rfl
  | true => exact absurd (htr a b a h h2) (by rw [hirr a]; simp)

theorem maxGo_not_lt {α : Type} {lt : α → α → Bool}
    (hirr : ∀ a, lt a a = false)
    (htr : ∀ a b c, lt a b = true → lt b c = true → lt a c = true)
    (hneg : ∀ a b c, lt a b = false → lt b c = false → lt a c = false) :
    ∀ (l : List α) (m : α), ∀ w ∈ m :: l, lt (maxGo lt m l) w = false := by
  intro l
  induction l with
  | nil =>
    intro m w hw
    rw [List.mem_singleton] at hw
    simp only [maxGo]
    rw [hw]
    exact hirr m
  | cons y r ih =>
    intro m w hw
    simp only [maxGo]
    by_cases hmy : lt m y = true
    · rw [if_pos hmy]
      rcases List.mem_cons.mp hw with hwm | hw'
      · rw [hwm]
        have hzy : lt (maxGo lt y r) y = false :=
          ih y y (List.mem_cons_self y r)
        exact lt_asymmB hirr htr (lt_step_up hneg hmy hzy)
      · exact ih y w hw'
    · rw [if_neg hmy]
      rw [Bool.not_eq_true] at hmy
      rcases List.mem_cons.mp hw with hwm | hw'
      · rw [hwm]
        exact ih m m (List.mem_cons_self m r)
      · rcases List.mem_cons.mp hw' with hwy | hwr
        · rw [hwy]
          exact hneg _ m y (ih m m (List.mem_cons_self m r)) hmy
        · exact ih m w (List.mem_cons_of_mem m hwr)

theorem maxGo_decomp {α : Type} {lt : α → α → Bool}
    (hirr : ∀ a, lt a a = false)
    (htr : ∀ a b c, lt a b = true → lt b c = true → lt a c = true)
    (hneg : ∀ a b c, lt a b = false → lt b c = false → lt a c = false) :
    ∀ (l : List α) (m : α), ∃ l1 l2, m :: l = l1 ++ maxGo lt m l :: l2 ∧
      ∀ y ∈ l1, lt y (maxGo lt m l) = true := by
  intro l
  induction l with
  | nil =>
    intro m
    exact ⟨[], [], rfl, by simp⟩
  | cons y r ih =>
    intro m
    simp only [maxGo]
    by_cases hmy : lt m y = true
    · rw [if_pos hmy]
      obtain ⟨l1, l2, hdec, hstrict⟩ := ih y
      refine ⟨m :: l1, l2, ?_, ?_⟩
      · rw [List.cons_append, ← hdec]
      · intro w hw
        rcases List.mem_cons.mp hw with hwm | hw'
        · subst hwm
          exact lt_step_up hneg hmy
            (maxGo_not_lt hirr htr hneg r y y (List.mem_cons_self y r))
        · exact hstrict w hw'
    · rw [if_neg hmy]
      rw [Bool.not_eq_true] at hmy
      obtain ⟨l1, l2, hdec, hstrict⟩ := ih m
      cases l1 with
      | nil =>
        simp only [List.nil_append] at hdec
        refine ⟨[], y :: l2, ?_, by simp⟩
        rw [List.nil_append]
        have hm : maxGo lt m r = m := by
          injection hdec with h1 _
          exact h1.symm
        rw [hm] at hdec ⊢
        injection hdec with _ h2
        rw [← h2]
      | cons a t =>
        rw [List.cons_append] at hdec
        injection hdec with h1 h2
        subst h1
        refine ⟨m :: y :: t, l2, ?_, ?_⟩
        · rw [show (m :: y :: t) ++ maxGo lt m r :: l2 =
            m :: y :: (t ++ maxGo lt m r :: l2) from rfl, ← h2]
        · intro w hw
          have hmz : lt m (maxGo lt m r) = true :=
            hstrict m (List.mem_cons_self m t)
          rcases List.mem_cons.mp hw with hwm | hw'
          · subst hwm
            exact hmz
          · rcases List.mem_cons.mp hw' with hwy | hwt
            · subst hwy
              exact lt_step_down hneg hmy hmz
            · exact hstrict w (List.mem_cons_of_mem m hwt)

theorem maxGo_append {α : Type} (lt : α → α → Bool) :
    ∀ (l : List α) (m x : α), maxGo lt m (l ++ [x]) =
      (if lt (maxGo lt m l) x = true then x else maxGo lt m l) := by
  intro l
  induction l with
  | nil =>
    intro m x
    simp [maxGo]
  | cons y r ih =>
    intro m x
    have hstep : maxGo lt m (y :: r) =
        (if lt m y = true then maxGo lt y r else maxGo lt m r) := rfl
    have hstep2 : maxGo lt m (y :: (r ++ [x])) =
        (if lt m y = true then maxGo lt y (r ++ [x])
         else maxGo lt m (r ++ [x])) := rfl
    rw [List.cons_append, hstep2, hstep]
    by_cases hmy : lt m y = true
    · rw [if_pos hmy, if_pos hmy, ih]
    · rw [if_neg hmy, if_neg hmy, ih]

theorem maxFirst_append {α : Type} (lt : α → α → Bool) (l : List α) (x : α) :
    maxFirst lt (l ++ [x]) =
      some (match maxFirst lt l with
        | none => x
        | some m => if lt m x = true then x else m) := by
  cases l with
  | nil => rfl
  | cons h t =>
    simp only [List.cons_append, maxFirst]
    rw [maxGo_append]

theorem head_insertDesc {α : Type} (lt : α → α → Bool) (x : α) (l : List α) :
    (insertDesc lt x l).head? =
      some (match l.head? with
        | none => x
        | some y => if lt y x = true then x else y) := by
  cases l with
  | nil => rfl
  | cons y ys =>
    simp only [insertDesc, List.head?]
    by_cases h : lt y x = true
    · rw [if_pos h, if_pos h]
    · rw [if_neg h, if_neg h]

theorem head_sortDesc {α : Type} (lt : α → α → Bool) :
    ∀ l : List α, (sortDesc lt l).head? = maxFirst lt l := by
  intro l
  induction l using List.reverseRecOn with
  | nil => rfl
  | append_singleton l x ih =>
    show (List.foldl (fun acc a => insertDesc lt a acc) [] (l ++ [x])).head? = _
    rw [List.foldl_append]
    rw [show List.foldl (fun acc a => insertDesc lt a acc) [] l = sortDesc lt l
      from rfl]
    simp only [List.foldl]
    rw [head_insertDesc, ih, maxFirst_append]

/-- The head of the stable descending sort is the first-seen maximum. -/
theorem sortDesc_head_spec {α : Type} {lt : α → α → Bool}
    (hirr : ∀ a, lt a a = false)
    (htr : ∀ a b c, lt a b = true → lt b c = true → lt a c = true)
    (hneg : ∀ a b c, lt a b = false → lt b c = false → lt a c = false)
    {l : List α} {x : α} (h : (sortDesc lt l).head? = some x) :
    ∃ l1 l2, l = l1 ++ x :: l2 ∧ (∀ y ∈ l1, lt y x = true) ∧
      (∀ y ∈ l2, lt x y = false) := by
  rw [head_sortDesc] at h
  cases l with
  | nil => exact absurd h (by simp [maxFirst])
  | cons m t =>
    have hx : maxGo lt m t = x := by
      simpa [maxFirst] using h
    obtain ⟨l1, l2, hdec, hstrict⟩ := maxGo_decomp hirr htr hneg t m
    rw [hx] at hdec hstrict
    refine ⟨l1, l2, hdec, hstrict, ?_⟩
    intro y hy
    have hyl : y ∈ m :: t := by
      rw [hdec]
      exact List.mem_append_right l1 (List.mem_cons_of_mem x hy)
    have := maxGo_not_lt hirr htr hneg t m y hyl
    rw [hx] at this
    exact this

theorem ltJson_irrefl : ∀ d : JsonRec, ltJson d d = false :=
  fun _ => keyLtT_irrefl _

theorem ltJson_trans : ∀ a b c : JsonRec, ltJson a b = true → ltJson b c = true →
    ltJson a c = true :=
  fun _ _ _ h1 h2 => keyLtT_trans h1 h2

theorem ltJson_negtrans : ∀ a b c : JsonRec, ltJson a b = false →
    ltJson b c = false → ltJson a c = false :=
  fun _ _ _ h1 h2 => keyLtT_negtrans h1 h2

theorem ltCat_irrefl : ∀ c : Cand, ltCat c c = false :=
  fun _ => keyLtP_irrefl _

theorem ltCat_trans : ∀ a b c : Cand, ltCat a b = true → ltCat b c = true →
    ltCat a c = true :=
  fun _ _ _ h1 h2 => keyLtP_trans h1 h2

theorem ltCat_negtrans : ∀ a b c : Cand, ltCat a b = false → ltCat b c = false →
    ltCat a c = false :=
  fun _ _ _ h1 h2 => keyLtP_negtrans h1 h2

/-- C6: both rankers select through the stable descending sort on their
key (release-date ordinal, then last-updated ordinal where the source has
one, then version string): the selected element is the first-seen
maximum — everything ordered before it by input position is strictly
smaller under the key, nothing after it is strictly greater (so exact-key
ties resolve to first-seen input order) — and for two candidates dated
`2023-01-01` and `2024-06-01` the latter is selected under both input
orders, for both the JSON and the catalog ranker. -/
theorem c6_candidate_ranker :
    (∀ (l : List JsonRec) (x : JsonRec), (sortDesc ltJson l).head? = some x →
      ∃ l1 l2, l = l1 ++ x :: l2 ∧ (∀ y ∈ l1, ltJson y x = true) ∧
        (∀ y ∈ l2, ltJson x y = false)) ∧
    (∀ (l : List Cand) (x : Cand), (sortDesc ltCat l).head? = some x →
      ∃ l1 l2, l = l1 ++ x :: l2 ∧ (∀ y ∈ l1, ltCat y x = true) ∧
        (∀ y ∈ l2, ltCat x y = false)) ∧
    (∀ d1 d2 : JsonRec, d1.ReleaseDate = some "2023-01-01".data →
      d2.ReleaseDate = some "2024-06-01".data →
      (sortDesc ltJson [d1, d2]).head? = some d2 ∧
      (sortDesc ltJson [d2, d1]).head? = some d2) ∧
    (∀ c1 c2 : Cand, c1.released = "2023-01-01".data →
      c2.released = "2024-06-01".data →
      (sortDesc ltCat [c1, c2]).head? = some c2 ∧
      (sortDesc ltCat [c2, c1]).head? = some c2) := by
  refine ⟨?_, ?_, ?_, ?_⟩
  · intro l x h
    exact sortDesc_head_spec ltJson_irrefl ltJson_trans ltJson_negtrans h
  · intro l x h
    exact sortDesc_head_spec ltCat_irrefl ltCat_trans ltCat_negtrans h
  · intro d1 d2 h1 h2
    have k1 : parse_date (d1.ReleaseDate.getD []) = 20230101 := by
      rw [h1]
      decide
    have k2 : parse_date (d2.ReleaseDate.getD []) = 20240601 := by
      rw [h2]
      decide
    have hd : ltJson d1 d2 = true := by
      unfold ltJson keyLtT jsonKey
      dsimp only
      rw [k1, k2]
      rw [if_pos (by norm_num)]
    have hd' : ltJson d2 d1 = false :=
      lt_asymmB ltJson_irrefl ltJson_trans hd
    constructor
    · show (insertDesc ltJson d2 (insertDesc ltJson d1 [])).head? = some d2
      simp [insertDesc, hd]
    · show (insertDesc ltJson d1 (insertDesc ltJson d2 [])).head? = some d2
      simp [insertDesc, hd']
  · intro c1 c2 h1 h2
    have k1 : parse_date c1.released = 20230101 := by
      rw [h1]
      decide
    have k2 : parse_date c2.released = 20240601 := by
      rw [h2]
      decide
    have hd : ltCat c1 c2 = true := by
      unfold ltCat keyLtP
      dsimp only
      rw [k1, k2]
      rw [if_pos (by norm_num)]
    have hd' : ltCat c2 c1 = false :=
      lt_asymmB ltCat_irrefl ltCat_trans hd
    constructor
    · show (insertDesc ltCat c2 (insertDesc ltCat c1 [])).head? = some c2
      simp [insertDesc, hd]
    · show (insertDesc ltCat c1 (insertDesc ltCat c2 [])).head? = some c2
      simp [insertDesc, hd']

def jsonRec23 : JsonRec := { ReleaseDate := some "2023-01-01".data }

def jsonRec24 : JsonRec := { ReleaseDate := some "2024-06-01".data }

def cand23 : Cand :=
  { name := [], version := "2.0".data, released := "2023-01-01".data,
    driverid := "AAAAA".data, filename := [], models := [] }

def cand24 : Cand :=
  { name := [], version := "1.0".data, released := "2024-06-01".data,
    driverid := "BBBBB".data, filename := [], models := [] }

/-- C6 witness: the 2024-06-01 candidate is selected by both rankers
under both input orders (for the catalog pair even against a larger
version string on the older candidate). -/
theorem c6_witness :
    (sortDesc ltJson [jsonRec23, jsonRec24]).head? = some jsonRec24 ∧
    (sortDesc ltJson [jsonRec24, jsonRec23]).head? = some jsonRec24 ∧
    (sortDesc ltCat [cand23, cand24]).head? = some cand24 ∧
    (sortDesc ltCat [cand24, cand23]).head? = some cand24 := by
  have hj := c6_candidate_ranker.2.2.1 jsonRec23 jsonRec24 rfl rfl
  have hc := c6_candidate_ranker.2.2.2 cand23 cand24 rfl rfl
  exact ⟨hj.1, hj.2, hc.1, hc.2⟩

/-! ### Per-row facts about the orchestrator -/

/-- A diagnostic row carrying one of the failure tags the code emits
(`missing_productcode`, `no_cpld_from_json`, `no_cpld_from_catalog`) or a
wrapped exception message (`json_error: ...`,
`catalog_parse_error: ...`). -/
def isFailureRow (r : Row) : Bool :=
  match r.error with
  | some t => t = "missing_productcode".data || t = "no_cpld_from_json".data ||
      t = "no_cpld_from_catalog".data ||
      "json_error: ".data.isPrefixOf t ||
      "catalog_parse_error: ".data.isPrefixOf t
  | none => false

/-- A diagnostic row carrying the `ResolvedDriver` fields. -/
def isResolvedRow (r : Row) : Bool :=
  r.error.isNone && r.driverid.isSome && r.url.isSome && r.source.isSome

/-- The rows of a report that mention the given model name. -/
def rowsFor (s : Str) (rows : List Row) : List Row :=
  rows.filter (fun r => r.model == some s)

theorem row1_model {api : ApiOracle} {e : ModelEntry} {r : Row}
    (h : row1 api e = some r) : r.model = e.name := by
  unfold row1 at h
  repeat' split at h
  all_goals first
    | (cases h; rfl)
    | exact Option.noConfusion h

theorem row1_eq_none {api : ApiOracle} {e : ModelEntry}
    (h : truthy e.name = false) : row1 api e = none := by
  unfold row1
  rw [h]
  rfl

theorem row1_isSome {api : ApiOracle} {e : ModelEntry}
    (h : truthy e.name = true) : (row1 api e).isSome = true := by
  unfold row1
  rw [h]
  repeat' split
  all_goals simp_all

/-- The diagnostic row `main` appends for an API-resolved entry. -/
def resolvedRowOf (e : ModelEntry) (res : Resolved) : Row :=
  { model := e.name, productcode := e.productcode,
    driverid := some res.driverid, version := res.version,
    released := res.released, url := some res.url,
    source := some res.source }

theorem row1_of_resolved {api : ApiOracle} {e : ModelEntry} {res : Resolved}
    (h : resolved1 api e = some res) :
    row1 api e = some (resolvedRowOf e res) := by
  unfold resolved1 at h
  split at h
  · rename_i hc
    rw [Bool.and_eq_true] at hc
    unfold row1
    rw [hc.1, hc.2, h]
    rfl
  · exact Option.noConfusion h

theorem isResolvedRow_of (e : ModelEntry) (res : Resolved) :
    isResolvedRow (resolvedRowOf e res) = true := rfl

theorem row1_failure {api : ApiOracle} {e : ModelEntry}
    (hn : truthy e.name = true) (h : resolved1 api e = none) :
    ∃ r, row1 api e = some r ∧ r.model = e.name ∧ isFailureRow r = true := by
  unfold resolved1 at h
  unfold row1
  rw [hn]
  cases hpc : truthy e.productcode with
  | false =>
    exact ⟨_, rfl, rfl, rfl⟩
  | true =>
    rw [hn, hpc] at h
    simp only [Bool.and_self, if_true] at h
    rw [h]
    exact ⟨_, rfl, rfl, rfl⟩

theorem row2_model (parse : ParseOracle) (xml : Str) (e : ModelEntry) :
    (row2 parse xml e).model = e.name := by
  unfold row2
  repeat' split
  all_goals rfl

theorem isPrefixOf_append : ∀ l1 l2 : Str, l1.isPrefixOf (l1 ++ l2) = true
  | [], _ => List.isPrefixOf_nil_left
  | a :: t, l2 => by
    show (a == a && t.isPrefixOf (t ++ l2)) = true
    rw [beq_self_eq_true]
    rw [isPrefixOf_append t l2]
    rfl

theorem row2_terminal (parse : ParseOracle) (xml : Str) (e : ModelEntry) :
    isFailureRow (row2 parse xml e) = true ∨
      isResolvedRow (row2 parse xml e) = true := by
  unfold row2
  split
  · rename_i msg
    left
    unfold isFailureRow
    dsimp only
    rw [isPrefixOf_append]
    simp
  · split
    · right
      rfl
    · left
      rfl

/-! ### Overlay and report decomposition lemmas -/

theorem dictInsert_ne_nil : ∀ (d : List (Str × Str)) (k v : Str),
    dictInsert d k v ≠ []
  | [], _, _ => by simp [dictInsert]
  | p :: t, k, v => by
    unfold dictInsert
    split <;> simp

theorem dictLookup_insert : ∀ (d : List (Str × Str)) (k v k' : Str),
    dictLookup (dictInsert d k v) k' =
      (if k = k' then some v else dictLookup d k')
  | [], k, v, k' => by
    unfold dictInsert dictLookup
    split <;> rfl
  | p :: t, k, v, k' => by
    unfold dictInsert
    by_cases hpk : p.1 = k
    · rw [if_pos hpk]
      unfold dictLookup
      by_cases hk : k = k'
      · rw [if_pos hk, if_pos hk]
      · rw [if_neg hk, if_neg hk]
        have : p.1 = k' ↔ False := by
          constructor
          · intro hp
            exact hk (hpk ▸ hp)
          · exact False.elim
        rw [if_neg (by rw [hpk]; exact hk)]
    · rw [if_neg hpk]
      show dictLookup (p :: dictInsert t k v) k' = _
      unfold dictLookup
      by_cases hpk' : p.1 = k'
      · rw [if_pos hpk', if_neg (by intro hk; exact hpk (hk ▸ hpk'))]
        rw [if_pos hpk']
      · rw [if_neg hpk', if_neg hpk']
        exact dictLookup_insert t k v k'

theorem resolved1_name {api : ApiOracle} {e : ModelEntry} {res : Resolved}
    (h : resolved1 api e = some res) : ∃ s, e.name = some s := by
  unfold resolved1 at h
  split at h
  · rename_i hc
    rw [Bool.and_eq_true] at hc
    cases hn : e.name with
    | none => rw [hn] at hc; exact absurd hc.1 (by simp [truthy])
    | some s => exact ⟨s, rfl⟩
  · exact Option.noConfusion h

theorem overlayStep_ne_nil {api : ApiOracle} {ov : List (Str × Str)}
    {e : ModelEntry} (h : ov ≠ []) : overlayStep api ov e ≠ [] := by
  unfold overlayStep
  repeat' split
  all_goals first | exact dictInsert_ne_nil _ _ _ | exact h

theorem overlayStep2_ne_nil {parse : ParseOracle} {xml : Str}
    {ov : List (Str × Str)} {e : ModelEntry} (h : ov ≠ []) :
    overlayStep2 parse xml ov e ≠ [] := by
  unfold overlayStep2
  repeat' split
  all_goals first | exact dictInsert_ne_nil _ _ _ | exact h

theorem foldl_overlayStep_ne_nil {api : ApiOracle} :
    ∀ (ms : List ModelEntry) (acc : List (Str × Str)), acc ≠ [] →
      ms.foldl (overlayStep api) acc ≠ []
  | [], _, h => h
  | x :: t, acc, h =>
    foldl_overlayStep_ne_nil t (overlayStep api acc x) (overlayStep_ne_nil h)

theorem foldl_overlayStep2_ne_nil {parse : ParseOracle} {xml : Str} :
    ∀ (ms : List ModelEntry) (acc : List (Str × Str)), acc ≠ [] →
      ms.foldl (overlayStep2 parse xml) acc ≠ []
  | [], _, h => h
  | x :: t, acc, h =>
    foldl_overlayStep2_ne_nil t (overlayStep2 parse xml acc x)
      (overlayStep2_ne_nil h)

theorem overlay1_ne_nil {api : ApiOracle} {e : ModelEntry} {res : Resolved}
    (hres : resolved1 api e = some res) :
    ∀ (ms : List ModelEntry) (acc : List (Str × Str)), e ∈ ms →
      ms.foldl (overlayStep api) acc ≠ []
  | [], _, he => absurd he (by simp)
  | x :: t, acc, he => by
    rcases List.mem_cons.mp he with hex | het
    · subst hex
      obtain ⟨s, hs⟩ := resolved1_name hres
      rw [List.foldl_cons]
      apply foldl_overlayStep_ne_nil
      unfold overlayStep
      rw [hres, hs]
      exact dictInsert_ne_nil _ _ _
    · exact overlay1_ne_nil hres t (overlayStep api acc x) het

theorem foldl_overlayStep_lookup {api : ApiOracle} {s : Str} :
    ∀ (ms : List ModelEntry) (acc : List (Str × Str)),
      (∀ y ∈ ms, y.name ≠ some s) →
      dictLookup (ms.foldl (overlayStep api) acc) s = dictLookup acc s
  | [], _, _ => rfl
  | x :: t, acc, h => by
    have ht : ∀ y ∈ t, y.name ≠ some s :=
      fun y hy => h y (List.mem_cons_of_mem x hy)
    rw [List.foldl_cons, foldl_overlayStep_lookup t _ ht]
    unfold overlayStep
    split
    · rename_i res s' _ hname
      rw [dictLookup_insert]
      have hx := h x (List.mem_cons_self x t)
      rw [hname] at hx
      rw [if_neg (by intro he; exact hx (he ▸ rfl))]
    · rfl

theorem overlay1_lookup {api : ApiOracle} {e : ModelEntry} {res : Resolved}
    {s : Str} (hres : resolved1 api e = some res) (hs : e.name = some s) :
    ∀ (ms : List ModelEntry) (acc : List (Str × Str)), e ∈ ms →
      ms.Pairwise (fun a b => a.name ≠ b.name) →
      dictLookup (ms.foldl (overlayStep api) acc) s = some res.url
  | [], _, he, _ => absurd he (by simp)
  | x :: t, acc, he, hp => by
    rw [List.pairwise_cons] at hp
    rcases List.mem_cons.mp he with hex | het
    · subst hex
      have ht : ∀ y ∈ t, y.name ≠ some s := by
        intro y hy hns
        exact hp.1 y hy (hs.trans hns.symm)
      rw [List.foldl_cons, foldl_overlayStep_lookup t _ ht]
      unfold overlayStep
      rw [hres, hs, dictLookup_insert, if_pos rfl]
    · exact overlay1_lookup hres hs t (overlayStep api acc x) het hp.2

theorem filterMap_row1_filter_none {api : ApiOracle} {s : Str} :
    ∀ ms : List ModelEntry, (∀ y ∈ ms, y.name ≠ some s) →
      (ms.filterMap (row1 api)).filter (fun r => r.model == some s) = []
  | [], _ => rfl
  | x :: t, h => by
    have ht : ∀ y ∈ t, y.name ≠ some s :=
      fun y hy => h y (List.mem_cons_of_mem x hy)
    rw [List.filterMap_cons]
    cases hx : row1 api x with
    | none => exact filterMap_row1_filter_none t ht
    | some r =>
      rw [List.filter_cons]
      have hm : (r.model == some s) = false := by
        rw [row1_model hx]
        exact beq_eq_false_iff_ne.mpr (h x (List.mem_cons_self x t))
      rw [hm]
      simp only [Bool.false_eq_true, if_false]
      exact filterMap_row1_filter_none t ht

theorem filterMap_row1_filter_unique {api : ApiOracle} {s : Str}
    {e : ModelEntry} (hs : e.name = some s) :
    ∀ ms : List ModelEntry, e ∈ ms →
      ms.Pairwise (fun a b => a.name ≠ b.name) →
      (ms.filterMap (row1 api)).filter (fun r => r.model == some s) =
        (row1 api e).toList
  | [], he, _ => absurd he (by simp)
  | x :: t, he, hp => by
    rw [List.pairwise_cons] at hp
    rw [List.filterMap_cons]
    rcases List.mem_cons.mp he with hex | het
    · subst hex
      have ht : ∀ y ∈ t, y.name ≠ some s :=
        fun y hy hns => hp.1 y hy (hs.trans hns.symm)
      cases hx : row1 api e with
      | none =>
        rw [filterMap_row1_filter_none t ht]
        rfl
      | some r =>
        rw [List.filter_cons]
        have hm : (r.model == some s) = true := by
          rw [row1_model hx, hs]
          exact beq_self_eq_true _
        rw [hm, if_pos rfl, filterMap_row1_filter_none t ht]
        rfl
    · have hxname : x.name ≠ some s := by
        intro hxs
        exact hp.1 e het (by rw [hxs, hs])
      cases hx : row1 api x with
      | none => exact filterMap_row1_filter_unique hs t het hp.2
      | some r =>
        rw [List.filter_cons]
        have hm : (r.model == some s) = false := by
          rw [row1_model hx]
          exact beq_eq_false_iff_ne.mpr hxname
        rw [hm]
        simp only [Bool.false_eq_true, if_false]
        exact filterMap_row1_filter_unique hs t het hp.2

theorem map_row2_filter_none {parse : ParseOracle} {xml : Str} {s : Str} :
    ∀ ms : List ModelEntry, (∀ y ∈ ms, y.name ≠ some s) →
      (ms.map (row2 parse xml)).filter (fun r => r.model == some s) = []
  | [], _ => rfl
  | x :: t, h => by
    rw [List.map_cons, List.filter_cons]
    have hm : ((row2 parse xml x).model == some s) = false := by
      rw [row2_model]
      exact beq_eq_false_iff_ne.mpr (h x (List.mem_cons_self x t))
    rw [hm]
    simp only [Bool.false_eq_true, if_false]
    exact map_row2_filter_none t (fun y hy => h y (List.mem_cons_of_mem x hy))

theorem map_row2_filter_unique {parse : ParseOracle} {xml : Str} {s : Str}
    {e : ModelEntry} (hs : e.name = some s) :
    ∀ ms : List ModelEntry, e ∈ ms →
      ms.Pairwise (fun a b => a.name ≠ b.name) →
      (ms.map (row2 parse xml)).filter (fun r => r.model == some s) =
        [row2 parse xml e]
  | [], he, _ => absurd he (by simp)
  | x :: t, he, hp => by
    rw [List.pairwise_cons] at hp
    rw [List.map_cons, List.filter_cons]
    rcases List.mem_cons.mp he with hex | het
    · subst hex
      have ht : ∀ y ∈ t, y.name ≠ some s :=
        fun y hy hns => hp.1 y hy (hs.trans hns.symm)
      have hm : ((row2 parse xml e).model == some s) = true := by
        rw [row2_model, hs]
        exact beq_self_eq_true _
      rw [hm, if_pos rfl, map_row2_filter_none t ht]
    · have hxname : x.name ≠ some s := by
        intro hxs
        exact hp.1 e het (by rw [hxs, hs])
      have hm : ((row2 parse xml x).model == some s) = false := by
        rw [row2_model]
        exact beq_eq_false_iff_ne.mpr hxname
      rw [hm]
      simp only [Bool.false_eq_true, if_false]
      exact map_row2_filter_unique hs t het hp.2

theorem pairwise_names {l : List ModelEntry}
    (hp : l.Pairwise (fun a b => a.name ≠ b.name)) :
    ∀ a ∈ l, ∀ b ∈ l, a ≠ b → a.name ≠ b.name := by
  induction hp with
  | nil =>
    intro a ha
    exact absurd ha (by simp)
  | cons hx _ ih =>
    intro a ha b hb hne
    rcases List.mem_cons.mp ha with hax | hat <;>
      rcases List.mem_cons.mp hb with hbx | hbt
    · exact absurd (hax.trans hbx.symm) hne
    · subst hax
      exact hx b hbt
    · subst hbx
      exact fun h => hx a hat h.symm
    · exact ih a hat b hbt hne

theorem mainWarnRows_filter (models : List ModelEntry) (api : ApiOracle)
    (download : CatalogOracle) (s : Str) :
    (mainWarnRows models api download).filter (fun r => r.model == some s) = [] := by
  unfold mainWarnRows
  split
  · rfl
  · split
    · rfl
    · rfl

/-- C1 (amended): in a run over a configured model list whose entries
carry non-empty, pairwise-distinct names, every entry receives at least
one diagnostic row mentioning its name, and the terminal (last) such row
carries either one of the failure tags the code emits
(`missing_productcode`, `no_cpld_from_json`, `no_cpld_from_catalog`, or a
wrapped `json_error:` / `catalog_parse_error:` exception message) or the
`ResolvedDriver` fields (driver id, url, source present, no error) joined
with the model name. -/
theorem c1_terminal_rows (models : List ModelEntry) (api : ApiOracle)
    (download : CatalogOracle) (parse : ParseOracle) (env : EnvOracle)
    (hname : ∀ e ∈ models, truthy e.name = true)
    (hdist : models.Pairwise (fun a b => a.name ≠ b.name)) :
    ∀ e ∈ models, ∀ s, e.name = some s →
      ∃ last,
        (rowsFor s (main models api download parse env).details).getLast? =
          some last ∧
        (isFailureRow last = true ∨ isResolvedRow last = true) := by
  intro e he s hs
  have hname_e : truthy e.name = true := hname e he
  unfold rowsFor main
  dsimp only
  rw [List.filter_append, List.filter_append, List.filter_append]
  rw [filterMap_row1_filter_unique hs models he hdist]
  rw [mainWarnRows_filter]
  cases hres : resolved1 api e with
  | some res =>
    rw [row1_of_resolved hres]
    have hov1 : models.foldl (overlayStep api) [] ≠ [] :=
      overlay1_ne_nil hres models [] he
    have hCe : (mainCatalogRows models api download parse).filter
        (fun r => r.model == some s) = [] := by
      unfold mainCatalogRows
      split
      · rfl
      · apply map_row2_filter_none
        intro y hy hys
        unfold unresolvedOf at hy
        have hy' := List.mem_filter.mp hy
        by_cases hye : y = e
        · subst hye
          have := hy'.2
          unfold unresolvedP at this
          rw [hres] at this
          simp at this
        · exact pairwise_names hdist y hy'.1 e he hye (hys.trans hs.symm)
    have hD : mainStaticRows models api download parse env = [] := by
      unfold mainStaticRows mainStatic
      have hov : mainOverlay2 models api download parse ≠ [] := by
        unfold mainOverlay2
        split
        · exact hov1
        · exact foldl_overlayStep2_ne_nil _ _ hov1
      rw [(List.isEmpty_eq_false).mpr hov]
      rfl
    rw [hCe, hD]
    exact ⟨resolvedRowOf e res, rfl, Or.inr (isResolvedRow_of e res)⟩
  | none =>
    obtain ⟨r1, hr1, hr1m, hr1f⟩ := row1_failure hname_e hres
    rw [hr1]
    have hmem : e ∈ unresolvedOf models api := by
      unfold unresolvedOf
      refine List.mem_filter.mpr ⟨he, ?_⟩
      unfold unresolvedP
      rw [hname_e, hres]
      rfl
    have hpu : (unresolvedOf models api).Pairwise
        (fun a b => a.name ≠ b.name) :=
      hdist.sublist (List.filter_sublist models)
    have hue : (unresolvedOf models api).isEmpty = false := by
      rw [List.isEmpty_eq_false]
      intro hnil
      rw [hnil] at hmem
      exact absurd hmem (by simp)
    have hDshape : (mainStaticRows models api download parse env).filter
          (fun r => r.model == some s) = [] ∨
        (mainStaticRows models api download parse env).filter
          (fun r => r.model == some s) = [staticFallbackRow] := by
      unfold mainStaticRows
      split
      · rw [List.filter_cons]
        cases hps : (staticFallbackRow.model == some s) with
        | false => exact Or.inl rfl
        | true => exact Or.inr rfl
      · exact Or.inl rfl
    by_cases hxml : (mainXml models api download).isEmpty = true
    · have hC : mainCatalogRows models api download parse = [] := by
        unfold mainCatalogRows
        rw [if_pos (Or.inr hxml)]
      rw [hC]
      rcases hDshape with hD | hD <;> rw [hD]
      · exact ⟨r1, rfl, Or.inl hr1f⟩
      · exact ⟨staticFallbackRow, rfl, Or.inr rfl⟩
    · have hC : mainCatalogRows models api download parse =
          (unresolvedOf models api).map
            (row2 parse (mainXml models api download)) := by
        unfold mainCatalogRows
        rw [if_neg]
        intro hor
        rcases hor with h1 | h2
        · rw [hue] at h1
          exact absurd h1 (by simp)
        · exact hxml h2
      rw [hC, map_row2_filter_unique hs _ hmem hpu]
      rcases hDshape with hD | hD <;> rw [hD]
      · exact ⟨row2 parse (mainXml models api download) e, rfl,
          row2_terminal parse (mainXml models api download) e⟩
      · exact ⟨staticFallbackRow, rfl, Or.inr rfl⟩

def apiDown : ApiOracle := fun _ _ => .error "offline".data

def parseFail : ParseOracle := fun _ => .error "parse".data

def envNone : EnvOracle := fun _ => none

def envStatic : EnvOracle :=
  fun k => if k = "ALLOW_STATIC_FALLBACK" then some "1".data else none

def envOther : EnvOracle :=
  fun k => if k = "PATH" then some "/usr/bin".data else none

def entryNoName : ModelEntry := { name := none, productcode := none }

def entryR640 : ModelEntry := { name := some "R640".data, productcode := none }

def entryR640pc : ModelEntry :=
  { name := some "R640".data, productcode := some "poweredge-r640".data }

def entryM1 : ModelEntry := { name := some "M1".data, productcode := none }

def entryM2 : ModelEntry := { name := some "M2".data, productcode := none }

/-- C1 counterexample: an entry with no name produces no diagnostic row
at all, and the failure tags the code emits are the literals
`missing_productcode` / `no_cpld_from_json`, none of which is among the
claimed tags `missing_product_code` / `no_cpld_from_api` /
`no_cpld_from_catalog` nor a wrapped exception message. -/
theorem c1_counterexample :
    (main [entryNoName] apiDown (.ok []) parseFail envNone).details = [] ∧
    ((main [entryR640] apiDown (.ok []) parseFail envNone).details.map
      (fun r => r.error)) = [some "missing_productcode".data] ∧
    ((main [entryR640pc] apiDown (.ok []) parseFail envNone).details.map
      (fun r => r.error)) = [some "no_cpld_from_json".data] ∧
    ("missing_productcode".data ∉
      ["missing_product_code".data, "no_cpld_from_api".data,
       "no_cpld_from_catalog".data]) ∧
    ("no_cpld_from_json".data ∉
      ["missing_product_code".data, "no_cpld_from_api".data,
       "no_cpld_from_catalog".data]) ∧
    "json_error: ".data.isPrefixOf "missing_productcode".data = false ∧
    "catalog_parse_error: ".data.isPrefixOf "missing_productcode".data = false := by
  refine ⟨by decide, by decide, by decide, by decide, by decide, by decide,
    by decide⟩

/-- C1 witness: the amended statement instantiated at a one-model run. -/
theorem c1_witness :
    ∃ last,
      (rowsFor "R640".data
        (main [entryR640] apiDown (.ok []) parseFail envNone).details).getLast? =
        some last ∧
      (isFailureRow last = true ∨ isResolvedRow last = true) :=
  c1_terminal_rows [entryR640] apiDown (.ok []) parseFail envNone
    (by decide) (by decide) entryR640 (by decide) "R640".data (by decide)

theorem row1_no_catalog_tag {api : ApiOracle} {e : ModelEntry} {r : Row}
    (h : row1 api e = some r) :
    r.error ≠ some "no_cpld_from_catalog".data := by
  unfold row1 at h
  repeat' split at h
  all_goals first
    | (injection h with h; subst h; intro hc;
        exact absurd hc (by dsimp only; decide))
    | exact Option.noConfusion h

/-- C4 (amended): when the catalog download raises while some model is
unresolved, the failure is recorded as a `catalog_download_error` warning
pseudo-row; no catalog-pass row is appended at all — in particular no row
carries `no_cpld_from_catalog`, so the still-unresolved models keep their
pass-1 failure rows rather than being retried or marked as catalog
misses; and every model already resolved by the API keeps both its
overlay entry and its resolved row. -/
theorem c4_download_failure (models : List ModelEntry) (api : ApiOracle)
    (parse : ParseOracle) (env : EnvOracle) (msg : Str)
    (hdist : models.Pairwise (fun a b => a.name ≠ b.name))
    (hunres : (unresolvedOf models api).isEmpty = false) :
    ({ warning := some ("catalog_download_error: ".data ++ msg) } : Row) ∈
      (main models api (.error msg) parse env).details ∧
    mainCatalogRows models api (.error msg) parse = [] ∧
    (∀ r ∈ (main models api (.error msg) parse env).details,
      r.error ≠ some "no_cpld_from_catalog".data) ∧
    (∀ e ∈ models, ∀ res, resolved1 api e = some res → ∀ s, e.name = some s →
      dictLookup (main models api (.error msg) parse env).overlay s =
        some res.url ∧
      resolvedRowOf e res ∈ (main models api (.error msg) parse env).details) := by
  have hxml : mainXml models api (.error msg) = [] := by
    unfold mainXml
    rw [if_neg (by rw [hunres]; simp)]
  have hwarn : mainWarnRows models api (.error msg) =
      [{ warning := some ("catalog_download_error: ".data ++ msg) }] := by
    unfold mainWarnRows
    rw [if_neg (by rw [hunres]; simp)]
  have hcat : mainCatalogRows models api (.error msg) parse = [] := by
    unfold mainCatalogRows
    rw [if_pos (Or.inr (by rw [hxml]; rfl))]
  have hov2 : mainOverlay2 models api (.error msg) parse =
      models.foldl (overlayStep api) [] := by
    unfold mainOverlay2
    rw [if_pos (Or.inr (by rw [hxml]; rfl))]
  refine ⟨?_, hcat, ?_, ?_⟩
  · unfold main
    dsimp only
    rw [hwarn]
    refine List.mem_append_left _ (List.mem_append_left _ ?_)
    exact List.mem_append_right _ (List.mem_cons_self _ _)
  · intro r hr
    unfold main at hr
    dsimp only at hr
    rw [hwarn, hcat] at hr
    rcases List.mem_append.mp hr with hr' | hrS
    · rcases List.mem_append.mp hr' with hr'' | hrW
      · rcases List.mem_append.mp hr'' with hr1 | hrw
        · obtain ⟨e, _, hrow⟩ := List.mem_filterMap.mp hr1
          exact row1_no_catalog_tag hrow
        · rw [List.mem_singleton] at hrw
          subst hrw
          simp
      · exact absurd hrW (by simp)
    · unfold mainStaticRows at hrS
      revert hrS
      split
      · intro hrS
        rw [List.mem_singleton] at hrS
        subst hrS
        simp [staticFallbackRow]
      · intro hrS
        exact absurd hrS (by simp)
  · intro e he res hres s hs
    have hov1ne : models.foldl (overlayStep api) [] ≠ [] :=
      overlay1_ne_nil hres models [] he
    have hstat : mainStatic models api (.error msg) parse env = false := by
      unfold mainStatic
      rw [hov2, (List.isEmpty_eq_false).mpr hov1ne]
      rfl
    constructor
    · unfold main mainOverlayF
      try dsimp only
      rw [hstat]
      try dsimp only
      rw [hov2]
      exact overlay1_lookup hres hs models [] he hdist
    · unfold main
      dsimp only
      refine List.mem_append_left _ (List.mem_append_left _
        (List.mem_append_left _ ?_))
      exact List.mem_filterMap.mpr ⟨e, he, row1_of_resolved hres⟩

/-- C4 counterexample: with one unresolved model and a failed catalog
download, the model is not marked as a catalog miss — no row carries
`no_cpld_from_catalog`; it merely keeps its pass-1 failure row. -/
theorem c4_counterexample :
    ((main [entryM1] apiDown (.error "boom".data) parseFail
        envNone).details.filter
      (fun r => r.error == some "no_cpld_from_catalog".data)) = [] ∧
    ({ warning := some "catalog_download_error: boom".data } : Row) ∈
      (main [entryM1] apiDown (.error "boom".data) parseFail
        envNone).details ∧
    dictLookup (main [entryM1] apiDown (.error "boom".data) parseFail
        envNone).overlay "M1".data = none := by
  refine ⟨by decide, by decide, by decide⟩

/-- C4 witness: the amended statement at a two-model run in which the
first model resolves via the API and the second stays unresolved. -/
theorem c4_witness :
    ({ warning := some "catalog_download_error: boom".data } : Row) ∈
      (main [entryR640pc, entryM2] sampleApi (.error "boom".data) parseFail
        envNone).details ∧
    mainCatalogRows [entryR640pc, entryM2] sampleApi (.error "boom".data)
      parseFail = [] ∧
    (∀ r ∈ (main [entryR640pc, entryM2] sampleApi (.error "boom".data)
        parseFail envNone).details,
      r.error ≠ some "no_cpld_from_catalog".data) ∧
    (∀ e ∈ [entryR640pc, entryM2], ∀ res,
      resolved1 sampleApi e = some res → ∀ s, e.name = some s →
      dictLookup (main [entryR640pc, entryM2] sampleApi (.error "boom".data)
        parseFail envNone).overlay s = some res.url ∧
      resolvedRowOf e res ∈ (main [entryR640pc, entryM2] sampleApi
        (.error "boom".data) parseFail envNone).details) :=
  c4_download_failure [entryR640pc, entryM2] sampleApi parseFail envNone
    "boom".data (by decide) (by decide)

/-- C9 (amended): the run is a pure function of the configuration and the
external responses together with the single environment variable
`ALLOW_STATIC_FALLBACK`: two runs with the same models, API, catalog and
parser responses, and the same value of that variable, produce identical
overlays, diagnostic rows and warning — the environment influences
nothing else. -/
theorem c9_env_independence (models : List ModelEntry) (api : ApiOracle)
    (download : CatalogOracle) (parse : ParseOracle) (env1 env2 : EnvOracle)
    (h : env1 "ALLOW_STATIC_FALLBACK" = env2 "ALLOW_STATIC_FALLBACK") :
    main models api download parse env1 = main models api download parse env2 := by
  unfold main mainOverlayF mainStaticRows mainStatic
  rw [h]

/-- C9 counterexample: with a fixed configuration and fixed (failing)
external responses, setting `ALLOW_STATIC_FALLBACK=1` changes the overlay
— the run is not independent of the environment. -/
theorem c9_counterexample :
    (main [entryR640] apiDown (.error "dl".data) parseFail envNone).overlay =
      [] ∧
    (main [entryR640] apiDown (.error "dl".data) parseFail envStatic).overlay =
      [("R640".data, staticFallbackUrl)] ∧
    envNone "ALLOW_STATIC_FALLBACK" ≠ envStatic "ALLOW_STATIC_FALLBACK" := by
  refine ⟨by decide, by decide, by decide⟩

/-- C9 witness: two environments agreeing on `ALLOW_STATIC_FALLBACK` while
differing elsewhere give identical runs. -/
theorem c9_witness :
    main [entryR640] apiDown (.error "dl".data) parseFail envNone =
    main [entryR640] apiDown (.error "dl".data) parseFail envOther :=
  c9_env_independence [entryR640] apiDown (.error "dl".data) parseFail
    envNone envOther (by decide)

end CPLD
